import Mathlib

/-! # MP3 tag reader and editor: edit path, view path and version

A shallow embedding of `edit.c`, `view.c` and `version.c`.

Conventions of the embedding.

* A byte is a `Fin 256`; a stream (the content of a file) is a `List Byte`.
* A `FILE` is the content of the file together with the read/write position.
  `fread`, `fwrite`, `fseek`, `ftell` and `rewind` follow the C library on such
  a file: a read stops at the end of the data, a write overwrites from the
  position on and extends the data when it runs past the end.
* A buffer is the list of bytes it holds.  `fread` stores the bytes it got at
  the start of the buffer and leaves the rest of the buffer as it was.
* An `int` is an `Int`; where the source looks at an `int` through a `char *`
  the four bytes are those of a little-endian host (`mem_of_int`, `int_of_mem`).
* Arrays of automatic storage hold, before the first store, the bytes given by
  the parameter `stack`; a block returned by `malloc` is zero filled, as it is
  in a process that has not freed anything yet. Where the source reads one byte
  past what it stored (the terminator of `TAG` in `compare_tag`, the byte after
  the text in `read_tag`) it finds such a zero byte of the block.
* A store or a read outside the block of a buffer is not modelled; each
  function says so where the source has one.
* A function of the source that can reach its closing brace without a `return`
  statement yields `none` there.
-/

namespace MP3

/-- One byte of a file or of a buffer. -/
abbrev Byte := Fin 256

/-- The enum `Status` of `type.h`. -/
inductive Status where
  | e_success
  | e_failure
  deriving DecidableEq, Repr

open Status

/-- A stdio stream on a regular file: the bytes of the file and the position. -/
structure FILE where
  data : List Byte
  pos : Nat
  deriving DecidableEq, Repr

/-- Bytes of an automatic array before the program stores anything in it:
`stack i` is the byte at index `i`. -/
def uninit (stack : Nat → Byte) (n : Nat) : List Byte :=
  (List.range n).map stack

/-- Block returned by `malloc (n)`: `n` zero bytes (none when `n` is not positive). -/
def malloc (n : Int) : List Byte :=
  List.replicate n.toNat 0

/-- Conversion of an `int` expression to `size_t` (64 bits). -/
def size_t (x : Int) : Nat :=
  (x % 2 ^ 64).toNat

/-- The characters of the C string that starts at the beginning of a buffer:
everything before the first zero byte. -/
def cstr (s : List Byte) : List Byte :=
  s.takeWhile (fun b => b != 0)

/-- Length of a C string, `strlen`. -/
def strlen (s : List Byte) : Nat :=
  (cstr s).length

/-- Result of `strcmp (a, b) == 0`: both C strings have the same characters. -/
def strcmp_eq (a b : List Byte) : Bool :=
  cstr a == cstr b

/-- Call `fread (ptr, 1, n, stream)`: the buffer afterwards, the number of bytes
read, and the stream afterwards. -/
def fread (ptr : List Byte) (n : Nat) (stream : FILE) : List Byte × Nat × FILE :=
  let got := (stream.data.drop stream.pos).take n
  (got ++ ptr.drop got.length, got.length, { stream with pos := stream.pos + got.length })

/-- Call `fwrite (ptr, 1, n, stream)`: the first `n` bytes of the buffer replace
the bytes of the file from the position on; a position past the end leaves a
gap of zero bytes. -/
def fwrite (ptr : List Byte) (n : Nat) (stream : FILE) : FILE :=
  let bytes := ptr.take n
  { data := (stream.data ++ List.replicate (stream.pos - stream.data.length) 0).take stream.pos
              ++ bytes ++ stream.data.drop (stream.pos + bytes.length),
    pos := stream.pos + bytes.length }

/-- Call `fseek (stream, offset, SEEK_CUR)`; a seek to before the start of the
file fails and leaves the position where it was. -/
def fseek (stream : FILE) (offset : Int) : FILE :=
  if 0 ≤ (stream.pos : Int) + offset then
    { stream with pos := ((stream.pos : Int) + offset).toNat }
  else stream

/-- Call `ftell (stream)`. -/
def ftell (stream : FILE) : Nat :=
  stream.pos

/-- Call `rewind (stream)`. -/
def rewind (stream : FILE) : FILE :=
  { stream with pos := 0 }

/-- Value of an `int` whose four bytes in memory are `p` (little-endian host,
two's complement). -/
def int_of_mem (p : List Byte) : Int :=
  let u : Nat := (p.getD 0 0).val + 256 * (p.getD 1 0).val
                  + 65536 * (p.getD 2 0).val + 16777216 * (p.getD 3 0).val
  if u < 2 ^ 31 then (u : Int) else (u : Int) - 2 ^ 32

/-- The four bytes in memory of the `int` of value `v` (little-endian host). -/
def mem_of_int (v : Int) : List Byte :=
  let u : Nat := (v % 2 ^ 32).toNat
  [Fin.ofNat u, Fin.ofNat (u / 256), Fin.ofNat (u / 65536), Fin.ofNat (u / 16777216)]

/-- Conversion of `strlen (s) + 1`, a `size_t`, to `int`. -/
def int_of_size (n : Nat) : Int :=
  int_of_mem (mem_of_int n)

/-- The function `convert_big_to_little_endian_for_edit` of `edit.c`, on the four
bytes of the `int` it is given: swaps bytes 0 and 3, and bytes 1 and 2. -/
def convert_big_to_little_endian_for_edit (p : List Byte) : List Byte :=
  match p with
  | [b0, b1, b2, b3] => [b3, b2, b1, b0]
  | _ => p

/-- The struct `EditInfo` of `edit.h`, without the names used for messages. -/
structure EditInfo where
  TAG : List Byte
  mode : List Byte
  old_size : Int
  user_content : List Byte
  user_content_size : Int
  fptr_original : FILE
  fptr_temp : FILE
  deriving DecidableEq, Repr

/-- The function `open_file` of `edit.c`: `disk` is the content of the file
named on the command line, `none` when it cannot be opened. -/
def open_file (disk : Option (List Byte)) (editInfo : EditInfo) : Status × EditInfo :=
  match disk with
  | none => (e_failure, editInfo)
  | some bytes =>
    (e_success, { editInfo with fptr_original := ⟨bytes, 0⟩, fptr_temp := ⟨[], 0⟩ })

/-- The function `copy_header_edit` of `edit.c`. -/
def copy_header_edit (stack : Nat → Byte) (editInfo : EditInfo) : Status × EditInfo :=
  let r := fread (uninit stack 10) 10 editInfo.fptr_original
  let arr := r.1
  let original := r.2.2
  let temp := fwrite arr 10 editInfo.fptr_temp
  let editInfo := { editInfo with fptr_original := original, fptr_temp := temp }
  (if ftell original = ftell temp then e_success else e_failure, editInfo)

/-- The function `skip_tag` of `edit.c`. The array `content` is given the
`size[0] - 1` bytes that are read into it and written from it. For a decoded
size below 1 the array of the source has no valid size and what the source
does is undefined: the model describes `skip_tag` for sizes from 1 on. -/
def skip_tag (stack : Nat → Byte) (editInfo : EditInfo) : Status × EditInfo :=
  let original := fseek editInfo.fptr_original (-4)
  let r := fread (uninit stack 5) 4 original
  let tag := r.1
  let original := r.2.2
  let temp := fwrite tag 4 editInfo.fptr_temp
  let r := fread (uninit stack 4) 4 original
  let size := r.1
  let original := r.2.2
  let temp := fwrite size 4 temp
  let size0 := int_of_mem (convert_big_to_little_endian_for_edit size)
  let r := fread (uninit stack 3) 3 original
  let flag := r.1
  let original := r.2.2
  let temp := fwrite flag 3 temp
  let n := size_t (size0 - 1)
  let r := fread (uninit stack n) n original
  let content := r.1
  let original := r.2.2
  let temp := fwrite content n temp
  let editInfo := { editInfo with fptr_original := original, fptr_temp := temp }
  (if ftell original = ftell temp then e_success else e_failure, editInfo)

/-- The loop of `copy_remaining_data` and of `copy_data_from_temp_to_original_file`:
one byte is read from `src` and written to `dst` until a read returns no byte.
The first argument bounds the number of turns; the callers pass the number of
bytes left in `src`, after which the next read returns no byte. -/
def copy_bytes : Nat → FILE → FILE → FILE × FILE
  | 0, src, dst => (src, dst)
  | k + 1, src, dst =>
    let r := fread [0] 1 src
    if r.2.1 = 1 then copy_bytes k r.2.2 (fwrite r.1 1 dst) else (src, dst)

/-- The function `copy_remaining_data` of `edit.c`. -/
def copy_remaining_data (editInfo : EditInfo) : Status × EditInfo :=
  let r := copy_bytes (editInfo.fptr_original.data.length - editInfo.fptr_original.pos)
    editInfo.fptr_original editInfo.fptr_temp
  (e_success, { editInfo with fptr_original := r.1, fptr_temp := r.2 })

/-- The `int` subtraction `a - b` as the program computes it: the difference is
brought back into the 32 bits of an `int`, so that -2^31 - 1 gives 2^31 - 1. -/
def int_sub (a b : Int) : Int :=
  int_of_mem (mem_of_int (a - b))

/-- The function `do_edit` of `edit.c`. The length of the seek over the old
content is the `int` difference `old_size - 1`. -/
def do_edit (stack : Nat → Byte) (editInfo : EditInfo) : Status × EditInfo :=
  let original := fseek editInfo.fptr_original (-4)
  let r := fread (uninit stack 5) 4 original
  let tag := r.1
  let original := r.2.2
  let temp := fwrite tag 4 editInfo.fptr_temp
  let r := fread (uninit stack 4) 4 original
  let size := r.1
  let original := r.2.2
  let old_size := int_of_mem (convert_big_to_little_endian_for_edit size)
  let user_content_size := int_of_size (strlen editInfo.user_content + 1)
  let user_content_size :=
    int_of_mem (convert_big_to_little_endian_for_edit (mem_of_int user_content_size))
  let new_size := mem_of_int user_content_size
  let temp := fwrite new_size 4 temp
  let r := fread (uninit stack 3) 3 original
  let flag := r.1
  let original := r.2.2
  let temp := fwrite flag 3 temp
  let temp := fwrite editInfo.user_content (strlen editInfo.user_content) temp
  let original := fseek original (int_sub old_size 1)
  let editInfo := { editInfo with
    old_size := old_size, user_content_size := user_content_size,
    fptr_original := original, fptr_temp := temp }
  let r := copy_remaining_data editInfo
  (if r.1 = e_success then e_success else e_failure, r.2)

/-- The `for` loop of `compare_tag`, with the number of turns left. After the
last turn the source reaches the end of the function without a `return`. -/
def compare_tag_loop (stack : Nat → Byte) : Nat → EditInfo → Option Status × EditInfo
  | 0, editInfo => (none, editInfo)
  | i + 1, editInfo =>
    let r := fread editInfo.TAG 4 editInfo.fptr_original
    let editInfo := { editInfo with TAG := r.1, fptr_original := r.2.2 }
    if strcmp_eq editInfo.TAG editInfo.mode then
      (some e_success, (do_edit stack editInfo).2)
    else
      compare_tag_loop stack i (skip_tag stack editInfo).2

/-- The function `compare_tag` of `edit.c`. The store `TAG[5] = 0` falls outside
the five bytes of `TAG` and is not part of the buffer. -/
def compare_tag (stack : Nat → Byte) (editInfo : EditInfo) : Option Status × EditInfo :=
  compare_tag_loop stack 6 { editInfo with TAG := malloc 5 }

/-- The function `copy_data_from_temp_to_original_file` of `edit.c`. -/
def copy_data_from_temp_to_original_file (editInfo : EditInfo) : Status × EditInfo :=
  let original := rewind editInfo.fptr_original
  let temp := rewind editInfo.fptr_temp
  let r := copy_bytes (temp.data.length - temp.pos) temp original
  let editInfo := { editInfo with fptr_original := r.2, fptr_temp := r.1 }
  (if ftell r.2 = ftell r.1 then e_success else e_failure, editInfo)

/-- The function `close_all_file` of `edit.c`: the streams are closed, nothing
is written and the length of the file is left as it is. -/
def close_all_file (editInfo : EditInfo) : Status × EditInfo :=
  (e_success, editInfo)

/-- The `EditInfo` that `read_and_validate_for_edit` hands to `do_edit_tags`:
the target frame id and the new content; the streams are not open yet. -/
def request (mode user_content : List Byte) : EditInfo :=
  { TAG := [], mode := mode, old_size := 0, user_content := user_content,
    user_content_size := 0, fptr_original := ⟨[], 0⟩, fptr_temp := ⟨[], 0⟩ }

/-- The function `do_edit_tags` of `edit.c`. The result is the status and the
`EditInfo` at the return; `undef` is the value the caller finds when
`compare_tag` ended without a `return` statement. -/
def do_edit_tags (stack : Nat → Byte) (undef : Status) (disk : Option (List Byte))
    (editInfo : EditInfo) : Status × EditInfo :=
  let r := open_file disk editInfo
  if r.1 = e_failure then (e_failure, r.2) else
  let r := copy_header_edit stack r.2
  if r.1 = e_failure then (e_failure, r.2) else
  let c := compare_tag stack r.2
  if c.1.getD undef = e_failure then (e_failure, c.2) else
  let r := copy_data_from_temp_to_original_file c.2
  let r := close_all_file r.2
  (e_success, r.2)

/-- Content of the file on disk after `do_edit_tags`: what the stream
`fptr_original` holds, or the content before when the file was never opened. -/
def storage_after (stack : Nat → Byte) (undef : Status) (bytes mode user_content : List Byte) :
    List Byte :=
  (do_edit_tags stack undef (some bytes) (request mode user_content)).2.fptr_original.data

/-- The six fields whose label `read_and_print_for_tag` prints. -/
inductive Field where
  | TITLE
  | ARTIST
  | ALBUM
  | YEAR
  | GENRE
  | COMMENT
  deriving DecidableEq, Repr

/-- The frame id "TIT2" (with the terminating zero of the string constant). -/
def TIT2 : List Byte := [84, 73, 84, 50, 0]

/-- The frame id "TPE1". -/
def TPE1 : List Byte := [84, 80, 69, 49, 0]

/-- The frame id "TALB". -/
def TALB : List Byte := [84, 65, 76, 66, 0]

/-- The frame id "TYER". -/
def TYER : List Byte := [84, 89, 69, 82, 0]

/-- The frame id "TCON". -/
def TCON : List Byte := [84, 67, 79, 78, 0]

/-- The frame id "COMM". -/
def COMM : List Byte := [67, 79, 77, 77, 0]

/-- The string constant "ID3". -/
def ID3 : List Byte := [73, 68, 51, 0]

/-- The struct `ViewInfo` of `view.h`, without the file name. -/
structure ViewInfo where
  tag : List Byte
  tag_size : Int
  TAG : List Byte
  version : List Byte
  fptr_src_song : FILE
  deriving DecidableEq, Repr

/-- The function `open_files` of `view.c`: `disk` is the content of the file,
`none` when it cannot be opened. -/
def open_files (disk : Option (List Byte)) (viInfo : ViewInfo) : Status × ViewInfo :=
  match disk with
  | none => (e_failure, viInfo)
  | some bytes => (e_success, { viInfo with fptr_src_song := ⟨bytes, 0⟩ })

/-- The function `version_reader` of `view.c`. The block of `version` has three
bytes; the string that `strcmp` reads ends with the block at the latest. -/
def version_reader (viInfo : ViewInfo) : Status × ViewInfo :=
  let r := fread (malloc 3) 3 viInfo.fptr_src_song
  let viInfo := { viInfo with version := r.1, fptr_src_song := r.2.2 }
  if !(strcmp_eq viInfo.version ID3) then (e_failure, viInfo)
  else (e_success, { viInfo with fptr_src_song := fseek viInfo.fptr_src_song 7 })

/-- Conversion `(int) c` of a `char` (a signed char, as on x86). -/
def int_of_char (b : Byte) : Int :=
  if b.val < 128 then (b.val : Int) else (b.val : Int) - 256

/-- Exchange of the bytes at indices `i` and `j` of a buffer. -/
def swap (ch : List Byte) (i j : Nat) : List Byte :=
  (ch.set i (ch.getD j 0)).set j (ch.getD i 0)

/-- The function `Big_to_Little_Endian` of `view.c`: the buffer after the two
exchanges of the `while` loop (indices 0, 3 and 1, 2), and `*size` after the
four additions of the `for` loop. -/
def Big_to_Little_Endian (ch : List Byte) (size : Int) : List Byte × Int :=
  let ch := swap ch 0 3
  let ch := swap ch 1 2
  (ch, (List.range 4).foldl (fun acc i => acc + int_of_char (ch.getD i 0)) size)

/-- The function `read_tag` of `view.c`. The caller passes a block of `size`
bytes. For a size below 1 the read and the stores fall outside the block, or
go through the null pointer that `malloc` returned, which is not modelled: the
model describes `read_tag` for sizes from 1 on. -/
def read_tag (size : Int) (store_content : List Byte) (viInfo : ViewInfo) :
    Status × List Byte × ViewInfo :=
  let src := fseek viInfo.fptr_src_song 3
  let r := fread store_content (size_t (size - 1)) src
  let store_content := r.1
  let i := strlen store_content
  let store_content := store_content.set i 0
  (e_success, store_content, { viInfo with fptr_src_song := r.2.2 })

/-- The function `TAG_reader` of `view.c`. When the sum that
`Big_to_Little_Endian` computes is below 1, `malloc` returns a null pointer or
a block without a byte, and what `read_tag` does through it is not modelled:
the model describes `TAG_reader` for sums from 1 on. -/
def TAG_reader (stack : Nat → Byte) (viInfo : ViewInfo) : Status × ViewInfo :=
  let r := fread viInfo.TAG 4 viInfo.fptr_src_song
  let viInfo := { viInfo with TAG := r.1.set 4 0, fptr_src_song := r.2.2 }
  let r := fread (uninit stack 4) 4 viInfo.fptr_src_song
  let ch1 := r.1
  let viInfo := { viInfo with fptr_src_song := r.2.2 }
  let viInfo := { viInfo with tag_size := 0 }
  let viInfo := { viInfo with tag_size := (Big_to_Little_Endian ch1 viInfo.tag_size).2 }
  let viInfo := { viInfo with tag := malloc viInfo.tag_size }
  let r := read_tag viInfo.tag_size viInfo.tag viInfo
  (e_success, { r.2.2 with tag := r.2.1 })

/-- The chain of comparisons in the loop body of `read_and_print_for_tag`: the
label printed for the frame id in `TAG`, if any. -/
def label (TAG : List Byte) : Option Field :=
  if strcmp_eq TAG TIT2 then some Field.TITLE
  else if strcmp_eq TAG TPE1 then some Field.ARTIST
  else if strcmp_eq TAG TALB then some Field.ALBUM
  else if strcmp_eq TAG TYER then some Field.YEAR
  else if strcmp_eq TAG TCON then some Field.GENRE
  else if strcmp_eq TAG COMM then some Field.COMMENT
  else none

/-- The `for` loop of `read_and_print_for_tag`, with the number of turns left:
the lines printed, each a label and the string printed after it, and the
`ViewInfo` after the loop. -/
def read_and_print_loop (stack : Nat → Byte) :
    Nat → ViewInfo → List (Field × List Byte) × ViewInfo
  | 0, viInfo => ([], viInfo)
  | i + 1, viInfo =>
    let viInfo := (TAG_reader stack viInfo).2
    let rest := read_and_print_loop stack i viInfo
    match label viInfo.TAG with
    | some f => ((f, cstr viInfo.tag) :: rest.1, rest.2)
    | none => rest

/-- The function `read_and_print_for_tag` of `view.c`; it ends without a
`return` statement. -/
def read_and_print_for_tag (stack : Nat → Byte) (viInfo : ViewInfo) :
    Option Status × List (Field × List Byte) × ViewInfo :=
  let r := read_and_print_loop stack 6 { viInfo with TAG := malloc 5 }
  (none, r.1, r.2)

/-- The function `view_tags` of `view.c`: the status, if a `return` statement
is reached, and the lines printed. `undef` is the value found as the result of
`read_and_print_for_tag`. -/
def view_tags (stack : Nat → Byte) (undef : Status) (disk : Option (List Byte)) :
    Option Status × List (Field × List Byte) :=
  let viInfo : ViewInfo := ⟨[], 0, [], [], ⟨[], 0⟩⟩
  let r := open_files disk viInfo
  if r.1 = e_failure then (some e_failure, []) else
  let r := version_reader r.2
  if r.1 = e_failure then (some e_failure, []) else
  let p := read_and_print_for_tag stack r.2
  if p.1.getD undef = e_failure then (some e_failure, p.2.1) else
  (none, p.2.1)

/-- The strings that `view_tags` prints under the label of field `f`, in order. -/
def shown (f : Field) (out : List (Field × List Byte)) : List (List Byte) :=
  (out.filter (fun l => l.1 = f)).map (fun l => l.2)

/-- The big-endian encoding of `n` (modulo 2^32) in four bytes. -/
def be32 (n : Nat) : List Byte :=
  [Fin.ofNat (n / 16777216), Fin.ofNat (n / 65536), Fin.ofNat (n / 256), Fin.ofNat n]

/-- The value of four bytes read as a big-endian unsigned number. -/
def be_value (p : List Byte) : Nat :=
  16777216 * (p.getD 0 0).val + 65536 * (p.getD 1 0).val + 256 * (p.getD 2 0).val
    + (p.getD 3 0).val

/-- A frame as the programs lay it out: the id, three bytes that are copied but
never looked at, and the content. The declared size is not stored: it is the
length of the content plus one. -/
structure Frame where
  id : List Byte
  flags : List Byte
  content : List Byte
  deriving DecidableEq, Repr

/-- The declared size of a frame: one more than the length of its content. -/
def Frame.size (fr : Frame) : Nat :=
  fr.content.length + 1

/-- The bytes of a frame in a stream: id[4], big-endian size[4], three bytes,
then size - 1 content bytes. -/
def Frame.bytes (fr : Frame) : List Byte :=
  fr.id ++ be32 fr.size ++ fr.flags ++ fr.content

/-- A frame is well formed when its id has 4 bytes, it has 3 flag bytes, and its
declared size fits the `int` that the programs decode it into. -/
def Frame.wf (fr : Frame) : Prop :=
  fr.id.length = 4 ∧ fr.flags.length = 3 ∧ fr.size < 2 ^ 31

instance (fr : Frame) : Decidable fr.wf :=
  inferInstanceAs (Decidable (fr.id.length = 4 ∧ fr.flags.length = 3 ∧ fr.size < 2 ^ 31))

/-- The bytes of a sequence of frames, one after the other. -/
def frames_bytes : List Frame → List Byte
  | [] => []
  | fr :: frs => fr.bytes ++ frames_bytes frs

/-- A stream: a header, frames, and the bytes after them. -/
def stream (header : List Byte) (frames : List Frame) (trailing : List Byte) : List Byte :=
  header ++ frames_bytes frames ++ trailing

/-- The scratch stream that `copy_header_edit` and `compare_tag` build from the
file content `bytes` for an edit request. -/
def scratch (stack : Nat → Byte) (bytes mode user_content : List Byte) : List Byte :=
  (compare_tag stack (copy_header_edit stack
    (open_file (some bytes) (request mode user_content)).2).2).2.fptr_temp.data

/-- Relation between the `EditInfo` before and after `skip_tag` or `do_edit` whatever the source
holds: the original keeps its bytes, the scratch stream only grows at its end. -/
def Grows (e e' : EditInfo) : Prop :=
  e'.fptr_original.data = e.fptr_original.data ∧
  e'.fptr_temp.pos = e'.fptr_temp.data.length ∧
  e'.mode = e.mode ∧ e'.user_content = e.user_content ∧
  ∃ sfx, e'.fptr_temp.data = e.fptr_temp.data ++ sfx

/-! ## Version and command line (`version.c`, `read_and_validate_for_edit`) -/

/-- The struct `VersionInfo` of `version.h`, without the file name. -/
structure VersionInfo where
  version : List Byte
  fptr_src : FILE
  deriving DecidableEq, Repr

/-- The function `open_files_for_version` of `version.c`: `disk` is the content
of the file, `none` when it cannot be opened. -/
def open_files_for_version (disk : Option (List Byte)) (VERInfo : VersionInfo) :
    Status × VersionInfo :=
  match disk with
  | none => (e_failure, VERInfo)
  | some bytes => (e_success, { VERInfo with fptr_src := ⟨bytes, 0⟩ })

/-- The function `version_read` of `version.c`: the status, what the VERSION
line shows (the string `version` and the number printed after "v2."), if the
line is printed, and the `VersionInfo` at the return. The block of `version`
has three bytes; the string that `strcmp` and `printf` read ends with the block
at the latest. -/
def version_read (stack : Nat → Byte) (disk : Option (List Byte)) (VERInfo : VersionInfo) :
    Status × Option (List Byte × Int) × VersionInfo :=
  let r := open_files_for_version disk VERInfo
  if r.1 = e_failure then (e_failure, none, r.2) else
  let VERInfo := r.2
  let rv := fread (malloc 3) 3 VERInfo.fptr_src
  let VERInfo := { VERInfo with version := rv.1, fptr_src := rv.2.2 }
  let rs := fread (uninit stack 1) 1 VERInfo.fptr_src
  let size := rs.1
  let VERInfo := { VERInfo with fptr_src := rs.2.2 }
  if !(strcmp_eq VERInfo.version ID3) then (e_failure, none, VERInfo)
  else
    (e_success, some (cstr VERInfo.version, int_of_char (size.getD 0 0)),
      { VERInfo with fptr_src := fseek VERInfo.fptr_src 7 })

/-- The fields `user_tag` and `original_fname` of the struct `EditInfo`, which
`edit.c` uses for its messages and for `fopen` only. -/
structure EditNames where
  user_tag : List Byte
  original_fname : List Byte
  deriving DecidableEq, Repr

/-- Whether the string `s` begins with the characters `p`. -/
def starts_with : List Byte → List Byte → Bool
  | _, [] => true
  | [], _ :: _ => false
  | a :: s, b :: p => a == b && starts_with s p

/-- Whether the characters `needle` occur somewhere in the characters `s`. -/
def occurs_in : List Byte → List Byte → Bool
  | [], needle => starts_with [] needle
  | a :: s, needle => starts_with (a :: s) needle || occurs_in s needle

/-- Result of `strstr (haystack, needle) != NULL` on two C strings. -/
def strstr_found (haystack needle : List Byte) : Bool :=
  occurs_in (cstr haystack) (cstr needle)

/-- The flag "-t". -/
def flag_t : List Byte := [45, 116, 0]

/-- The flag "-a". -/
def flag_a : List Byte := [45, 97, 0]

/-- The flag "-y". -/
def flag_y : List Byte := [45, 121, 0]

/-- The flag "-A". -/
def flag_A : List Byte := [45, 65, 0]

/-- The flag "-g". -/
def flag_g : List Byte := [45, 103, 0]

/-- The flag "-c". -/
def flag_c : List Byte := [45, 99, 0]

/-- The string constant "TITLE". -/
def TITLE : List Byte := [84, 73, 84, 76, 69, 0]

/-- The string constant "ARTIST". -/
def ARTIST : List Byte := [65, 82, 84, 73, 83, 84, 0]

/-- The string constant "YEAR". -/
def YEAR : List Byte := [89, 69, 65, 82, 0]

/-- The string constant "ALBUM". -/
def ALBUM : List Byte := [65, 76, 66, 85, 77, 0]

/-- The string constant "GENRE". -/
def GENRE : List Byte := [71, 69, 78, 82, 69, 0]

/-- The string constant "COMMENT". -/
def COMMENT : List Byte := [67, 79, 77, 77, 69, 78, 84, 0]

/-- The string constant ".mp3". -/
def dot_mp3 : List Byte := [46, 109, 112, 51, 0]

/-- The chain of `strcmp` tests on `argv[2]` in `read_and_validate_for_edit`: the
strings copied to `user_tag` and to `mode` in the branch taken, or `none` in the
last `else` branch. The stores `user_tag[6] = 0` and the like repeat the
terminator that `strcpy` wrote, or fall outside the array (`user_tag[8]`), and
are not modelled. -/
def flag_branch (flag : List Byte) : Option (List Byte × List Byte) :=
  if strcmp_eq flag flag_t then some (TITLE, TIT2)
  else if strcmp_eq flag flag_a then some (ARTIST, TPE1)
  else if strcmp_eq flag flag_y then some (YEAR, TYER)
  else if strcmp_eq flag flag_A then some (ALBUM, TALB)
  else if strcmp_eq flag flag_g then some (GENRE, TCON)
  else if strcmp_eq flag flag_c then some (COMMENT, COMM)
  else none

/-- The function `read_and_validate_for_edit` of `edit.c`; `argv` is the list of
the command line strings, a missing entry reads as the empty string. The loop
that looks for the end of `user_content` stores the terminator where `strcpy`
has put it. -/
def read_and_validate_for_edit (argv : List (List Byte)) (editInfo : EditInfo)
    (names : EditNames) : Status × EditInfo × EditNames :=
  let editInfo := { editInfo with mode := malloc 5 }
  match flag_branch (argv.getD 2 []) with
  | none => (e_failure, editInfo, names)
  | some (tag, mode) =>
    let names := { names with user_tag := tag }
    let editInfo := { editInfo with mode := mode }
    let editInfo := { editInfo with user_content := cstr (argv.getD 3 []) ++ [0] }
    if (argv.getD 4 []).getD 0 0 ≠ 46 then
      if strstr_found (argv.getD 4 []) dot_mp3 then
        (e_success, editInfo, { names with original_fname := argv.getD 4 [] })
      else (e_failure, editInfo, names)
    else (e_failure, editInfo, names)

/-! ## Labels, file names and the walk over the frames -/

/-- The string constant that `read_and_print_for_tag` passes to `printf` as the
label of a field. -/
def label_text : Field → List Byte
  | Field.TITLE => [84, 73, 84, 76, 69, 32, 0]
  | Field.ARTIST => [65, 82, 84, 73, 83, 84, 32, 0]
  | Field.ALBUM => [65, 76, 66, 85, 77, 32, 0]
  | Field.YEAR => [89, 69, 65, 82, 32, 0]
  | Field.GENRE => [71, 69, 78, 82, 69, 32, 0]
  | Field.COMMENT => [67, 79, 77, 77, 69, 78, 84, 32, 0]

/-- The function `read_and_validate_for_view` of `view.c`: the status and the
field `src_song_fname` at the return; `argv` is the list of the command line
strings, a missing entry reads as the empty string. -/
def read_and_validate_for_view (argv : List (List Byte)) (src_song_fname : List Byte) :
    Status × List Byte :=
  if (argv.getD 2 []).getD 0 0 ≠ 46 then
    if strstr_found (argv.getD 2 []) dot_mp3 then (e_success, argv.getD 2 [])
    else (e_failure, src_song_fname)
  else (e_failure, src_song_fname)

/-- The function `read_and_validate_for_version` of `version.c`: the status and
the field `src_fname` at the return. -/
def read_and_validate_for_version (argv : List (List Byte)) (src_fname : List Byte) :
    Status × List Byte :=
  if (argv.getD 2 []).getD 0 0 ≠ 46 then
    if strstr_found (argv.getD 2 []) dot_mp3 then (e_success, argv.getD 2 [])
    else (e_failure, src_fname)
  else (e_failure, src_fname)

/-- The walk of claim C26, which is stated in the words of the claim and is not
a function of the source: over a stream with the frame layout id[4], size[4],
3 bytes, size - 1 content bytes, the offset and the id of each of the next `k`
frames, from the offset `off` on. The size of a frame is the big-endian value
of its four size bytes. -/
def walk : Nat → List Byte → Nat → List (Nat × List Byte)
  | 0, _, _ => []
  | k + 1, bytes, off =>
    (off, (bytes.drop off).take 4)
      :: walk k bytes (off + 4 + 4 + 3 + (be_value ((bytes.drop (off + 4)).take 4) - 1))

/-- The offsets and the ids of the frames `frs` when their bytes lie one after
the other from the offset `off` on; what the walk is compared with. -/
def layout : Nat → List Frame → List (Nat × List Byte)
  | _, [] => []
  | off, fr :: frs => (off, fr.id) :: layout (off + fr.bytes.length) frs

/-! ## Sample data -/

/-- A stack whose unwritten bytes are all zero. -/
def stack0 : Nat → Byte := fun _ => 0

/-- A tag header: "ID3", version 3.0, a flag byte and four size bytes. -/
def header0 : List Byte := [73, 68, 51, 3, 0, 0, 0, 0, 0, 66]

/-- Six frames, one for each id of the catalog: TIT2 "Song", TPE1 "AB" with
three zero bytes of padding, TALB "LP", TYER "2025", TCON "Pop", COMM "Hi". -/
def frames0 : List Frame :=
  [⟨[84, 73, 84, 50], [0, 0, 0], [83, 111, 110, 103]⟩,
   ⟨[84, 80, 69, 49], [0, 0, 0], [65, 66, 0, 0, 0]⟩,
   ⟨[84, 65, 76, 66], [0, 0, 0], [76, 80]⟩,
   ⟨[84, 89, 69, 82], [0, 0, 0], [50, 48, 50, 53]⟩,
   ⟨[84, 67, 79, 78], [0, 0, 0], [80, 111, 112]⟩,
   ⟨[67, 79, 77, 77], [0, 0, 0], [72, 105]⟩]

/-- The bytes after the frames. -/
def trailing0 : List Byte := [255, 251, 144, 100]

/-- A well-formed stream of 100 bytes: header, six frames, four more bytes. -/
def sample : List Byte := stream header0 frames0 trailing0

/-- Six frames none of which has the id TYER: the year is in a frame TDRC. -/
def frames1 : List Frame :=
  [⟨[84, 73, 84, 50], [0, 0, 0], [83, 111, 110, 103]⟩,
   ⟨[84, 80, 69, 49], [0, 0, 0], [65, 66]⟩,
   ⟨[84, 65, 76, 66], [0, 0, 0], [76, 80]⟩,
   ⟨[84, 68, 82, 67], [0, 0, 0], [50, 48, 50, 53]⟩,
   ⟨[84, 67, 79, 78], [0, 0, 0], [80, 111, 112]⟩,
   ⟨[67, 79, 77, 77], [0, 0, 0], [72, 105]⟩]

/-- A well-formed stream without a TYER frame. -/
def sample1 : List Byte := stream header0 frames1 trailing0

/-- A stream whose first frame, TIT2, declares size 0; its three flag bytes are
0, 0, 7 and the other five frames of `frames0` follow. -/
def zero_size0 : List Byte :=
  header0 ++ ([84, 73, 84, 50] ++ be32 0 ++ [0, 0, 7]
    ++ (frames_bytes (frames0.drop 1) ++ trailing0))

/-- The new content "XYZ", as the C string of the command line. -/
def xyz : List Byte := [88, 89, 90, 0]

/-- The `EditInfo` that `compare_tag` hands to `do_edit` for the request TPE1,
"XYZ" on `sample`: the id of the second frame has just been read. -/
def edit_state0 : EditInfo :=
  { TAG := [84, 80, 69, 49, 0], mode := TPE1, old_size := 0, user_content := xyz,
    user_content_size := 0, fptr_original := ⟨sample, 29⟩, fptr_temp := ⟨sample.take 25, 25⟩ }

/-- The `EditInfo` that `compare_tag` hands to `do_edit` for the request TIT2,
"XYZ" on `zero_size0`. -/
def edit_state1 : EditInfo :=
  { TAG := [84, 73, 84, 50, 0], mode := TIT2, old_size := 0, user_content := xyz,
    user_content_size := 0, fptr_original := ⟨zero_size0, 14⟩, fptr_temp := ⟨header0, 10⟩ }

/-- A stream of 93 bytes without a TYER frame that ends inside its sixth frame:
COMM declares size 10 and two content bytes follow its 11-byte header. -/
def truncated_skip0 : List Byte :=
  header0 ++ frames_bytes (frames1.take 5)
    ++ ([67, 79, 77, 77] ++ be32 10 ++ [0, 0, 0] ++ [72, 105])

/-- The `EditInfo` with which `compare_tag` calls `skip_tag` for the sixth frame of
`truncated_skip0` and the request TYER, "2026". -/
def skip_state0 : EditInfo :=
  { TAG := [67, 79, 77, 77, 0], mode := TYER, old_size := 0, user_content := [50, 48, 50, 54, 0],
    user_content_size := 0, fptr_original := ⟨truncated_skip0, 84⟩,
    fptr_temp := ⟨truncated_skip0.take 80, 80⟩ }

/-- A header of 10 bytes that starts with "xyz". -/
def header_xyz : List Byte := [120, 121, 122, 3, 0, 0, 0, 0, 0, 66]

/-- The stream `sample` with the first three bytes "xyz". -/
def bad_magic : List Byte := stream header_xyz frames0 trailing0

/-- A well-formed stream whose first frame, TIT2, has 255 content bytes "A". -/
def long_title : List Byte :=
  stream header0 (⟨[84, 73, 84, 50], [0, 0, 0], List.replicate 255 65⟩ :: frames0.drop 1)
    trailing0

/-- Six well-formed frames. The first, TIT2, has 255 content bytes, which begin
with eleven bytes that read as a frame header: the id 1, 1, 1, 1, the size bytes
127, 127, 46, 0 and three more bytes. The other five frames have no content. -/
def six0 : List Frame :=
  [⟨[84, 73, 84, 50], [0, 0, 0], [1, 1, 1, 1, 127, 127, 46, 0, 0, 0, 0] ++ List.replicate 244 65⟩,
   ⟨[84, 80, 69, 49], [0, 0, 0], []⟩,
   ⟨[84, 65, 76, 66], [0, 0, 0], []⟩,
   ⟨[84, 89, 69, 82], [0, 0, 0], []⟩,
   ⟨[84, 67, 79, 78], [0, 0, 0], []⟩,
   ⟨[67, 79, 77, 77], [0, 0, 0], []⟩]

/-- Four frames to follow `six0`: COMM "Hi" and three frames XXXX. -/
def after_a : List Byte :=
  frames_bytes [⟨[67, 79, 77, 77], [0, 0, 0], [72, 105]⟩, ⟨[88, 88, 88, 88], [0, 0, 0], []⟩,
    ⟨[88, 88, 88, 88], [0, 0, 0], []⟩, ⟨[88, 88, 88, 88], [0, 0, 0], []⟩]

/-- Four frames to follow `six0`: COMM "Yo" and three frames XXXX. -/
def after_b : List Byte :=
  frames_bytes [⟨[67, 79, 77, 77], [0, 0, 0], [89, 111]⟩, ⟨[88, 88, 88, 88], [0, 0, 0], []⟩,
    ⟨[88, 88, 88, 88], [0, 0, 0], []⟩, ⟨[88, 88, 88, 88], [0, 0, 0], []⟩]

/-- The file name "a.mp3.txt". -/
def a_mp3_txt : List Byte := [97, 46, 109, 112, 51, 46, 116, 120, 116, 0]

/-- The file name "song.mp3". -/
def song_mp3 : List Byte := [115, 111, 110, 103, 46, 109, 112, 51, 0]

/-- The new content "Abc", as the C string of the command line. -/
def abc : List Byte := [65, 98, 99, 0]

/-- A stream of 10 bytes that starts with "ID3" and has the bytes 3 and 7 at the
offsets 3 and 4. -/
def version_3_7 : List Byte := [73, 68, 51, 3, 7, 0, 0, 0, 0, 66]

/-- A stream of 10 bytes that starts with "ID3" and has the bytes 3 and 9 at the
offsets 3 and 4. -/
def version_3_9 : List Byte := [73, 68, 51, 3, 9, 0, 0, 0, 0, 66]

/-- The frames of `frames0` after TITLE is set to "Abc" and ARTIST to "XYZ". -/
def frames2 : List Frame :=
  ⟨[84, 73, 84, 50], [0, 0, 0], [65, 98, 99]⟩ :: ⟨[84, 80, 69, 49], [0, 0, 0], [88, 89, 90]⟩
    :: frames0.drop 2

/-- A frame TYER "2025" and the bytes of `trailing0`, to follow six frames. -/
def seventh0 : List Byte :=
  Frame.bytes ⟨[84, 89, 69, 82], [0, 0, 0], [50, 48, 50, 53]⟩ ++ trailing0

/-! ## The stdio model -/

theorem fread_at (ptr d : List Byte) (p n : Nat) (x rest : List Byte)
    (h : d.drop p = x ++ rest) (hn : x.length = n) :
    fread ptr n ⟨d, p⟩ = (x ++ ptr.drop n, n, ⟨d, p + n⟩) := by
  subst hn
  simp [fread, h]

theorem drop_at (d : List Byte) (p n : Nat) (x rest : List Byte)
    (h : d.drop p = x ++ rest) (hn : x.length = n) : d.drop (p + n) = rest := by
  subst hn
  rw [← List.drop_drop, h]
  simp

theorem fwrite_end (ptr d : List Byte) (n : Nat) (hn : n ≤ ptr.length) :
    fwrite ptr n ⟨d, d.length⟩ = ⟨d ++ ptr.take n, d.length + n⟩ := by
  simp [fwrite, Nat.min_eq_left hn]

theorem fwrite_mid (ptr d : List Byte) (p n : Nat) (hn : n ≤ ptr.length) (hp : p ≤ d.length) :
    fwrite ptr n ⟨d, p⟩ = ⟨d.take p ++ ptr.take n ++ d.drop (p + n), p + n⟩ := by
  simp [fwrite, Nat.min_eq_left hn, Nat.sub_eq_zero_of_le hp]

theorem fseek_back (d : List Byte) (q : Nat) : fseek ⟨d, q + 4⟩ (-4) = ⟨d, q⟩ := by
  simp [fseek]

theorem take_cstr (s : List Byte) : s.take (strlen s) = cstr s := by
  unfold strlen cstr
  induction s with
  | nil => rfl
  | cons a t ih =>
    by_cases h : (a != 0) = true
    · simp [List.takeWhile_cons, h, ih]
    · simp [List.takeWhile_cons, h]

theorem strlen_le (s : List Byte) : strlen s ≤ s.length := by
  unfold strlen cstr
  exact (List.takeWhile_sublist _).length_le

theorem mem_of_int_of_mem (p : List Byte) (h : p.length = 4) : mem_of_int (int_of_mem p) = p := by
  match p, h with
  | [a, b, c, d], _ =>
    obtain ⟨a, ha⟩ := a
    obtain ⟨b, hb⟩ := b
    obtain ⟨c, hc⟩ := c
    obtain ⟨d, hd⟩ := d
    simp only [mem_of_int, int_of_mem, List.getD_cons_zero, List.getD_cons_succ, Fin.ofNat]
    split <;> simp <;> refine ⟨?_, ?_, ?_, ?_⟩ <;> omega

theorem be32_length (n : Nat) : (be32 n).length = 4 := rfl

theorem convert_be32 (n : Nat) (h : n < 2 ^ 31) :
    int_of_mem (convert_big_to_little_endian_for_edit (be32 n)) = (n : Int) := by
  simp only [be32, convert_big_to_little_endian_for_edit, int_of_mem, List.getD_cons_zero,
    List.getD_cons_succ, Fin.ofNat]
  have : n % 256 + 256 * (n / 256 % 256) + 65536 * (n / 65536 % 256)
      + 16777216 * (n / 16777216 % 256) = n := by omega
  simp only [this]
  rw [if_pos h]

theorem new_size_bytes (n : Nat) :
    mem_of_int (int_of_mem (convert_big_to_little_endian_for_edit
      (mem_of_int (int_of_size n)))) = be32 n := by
  have h4 : (convert_big_to_little_endian_for_edit (mem_of_int (int_of_size n))).length = 4 := rfl
  rw [mem_of_int_of_mem _ h4, int_of_size, mem_of_int_of_mem (mem_of_int (n : Int)) rfl]
  simp only [mem_of_int, convert_big_to_little_endian_for_edit, be32, Fin.ofNat]
  simp
  refine ⟨?_, ?_, ?_, ?_⟩ <;> omega

theorem size_t_pred (n : Nat) (h : n < 2 ^ 31) : size_t (((n + 1 : Nat) : Int) - 1) = n := by
  simp only [size_t]
  omega

theorem copy_bytes_eq (k : Nat) : ∀ (sd : List Byte) (sp : Nat) (dd : List Byte) (dp : Nat),
    k = sd.length - sp → dp ≤ dd.length →
    copy_bytes k ⟨sd, sp⟩ ⟨dd, dp⟩
      = (⟨sd, sp + k⟩, ⟨dd.take dp ++ sd.drop sp ++ dd.drop (dp + k), dp + k⟩) := by
  induction k with
  | zero =>
    intro sd sp dd dp hk hd
    have : sd.drop sp = [] := by
      apply List.drop_eq_nil_of_le
      omega
    simp [copy_bytes, this]
  | succ k ih =>
    intro sd sp dd dp hk hd
    have hlt : sp < sd.length := by omega
    have hdrop : sd.drop sp = [sd[sp]] ++ sd.drop (sp + 1) := by
      simp
    have hr := fread_at [0] sd sp 1 [sd[sp]] (sd.drop (sp + 1)) hdrop rfl
    simp only [copy_bytes, hr]
    rw [if_pos trivial, fwrite_mid _ _ _ _ (by simp) hd]
    rw [ih sd (sp + 1) _ (dp + 1) (by omega) (by simp; omega)]
    have e1 : (dd.take dp ++ List.take 1 ([sd[sp]] ++ List.drop 1 [0]) ++ dd.drop (dp + 1)).take (dp + 1)
        = dd.take dp ++ [sd[sp]] := by
      simp [List.take_append_eq_append_take, Nat.min_eq_left hd]
    have e2 : (dd.take dp ++ List.take 1 ([sd[sp]] ++ List.drop 1 [0]) ++ dd.drop (dp + 1)).drop (dp + 1 + k)
        = dd.drop (dp + (k + 1)) := by
      simp [List.drop_append_eq_append_drop, Nat.min_eq_left hd]
      have h0 : List.drop (dp + 1 + k) (List.take dp dd) = [] := by
        apply List.drop_eq_nil_of_le
        simp
        omega
      have h1 : dp + 1 + k - dp = k + 1 := by omega
      rw [h0, h1]
      simp only [List.nil_append, List.drop_succ_cons, List.drop_drop]
      congr 1
      omega
    rw [e1, e2, hdrop]
    simp [Nat.add_assoc, Nat.add_comm 1 k]

theorem Frame.bytes_length (fr : Frame) (h : fr.wf) : fr.bytes.length = 10 + fr.size := by
  obtain ⟨h1, h2, _⟩ := h
  simp [Frame.bytes, Frame.size, h1, h2, be32_length]
  omega

theorem uninit_length (stack : Nat → Byte) (n : Nat) : (uninit stack n).length = n := by
  simp [uninit]

theorem fread_full (ptr d : List Byte) (p n : Nat) (x rest : List Byte)
    (h : d.drop p = x ++ rest) (hn : x.length = n) (hp : ptr.length = n) :
    fread ptr n ⟨d, p⟩ = (x, n, ⟨d, p + n⟩) := by
  rw [fread_at ptr d p n x rest h hn, List.drop_of_length_le (Nat.le_of_eq hp), List.append_nil]

theorem fwrite_app (x tl d : List Byte) (n : Nat) (hn : x.length = n) :
    fwrite (x ++ tl) n ⟨d, d.length⟩ = ⟨d ++ x, d.length + n⟩ := by
  subst hn
  rw [fwrite_end _ _ _ (by simp)]
  simp

theorem fwrite_all (x d : List Byte) (n : Nat) (hn : x.length = n) :
    fwrite x n ⟨d, d.length⟩ = ⟨d ++ x, d.length + n⟩ := by
  have := fwrite_app x [] d n hn
  simpa using this

/-- The function `skip_tag` on a complete frame copies it and reports success. -/
theorem skip_tag_frame (stack : Nat → Byte) (e : EditInfo) (fr : Frame) (rest : List Byte)
    (q : Nat) (hwf : fr.wf) (hpos : e.fptr_original.pos = q + 4)
    (hdata : e.fptr_original.data.drop q = fr.bytes ++ rest)
    (htemp : e.fptr_temp.pos = e.fptr_temp.data.length) (hq : e.fptr_temp.data.length = q) :
    skip_tag stack e = (e_success, { e with
      fptr_original := ⟨e.fptr_original.data, q + fr.bytes.length⟩,
      fptr_temp := ⟨e.fptr_temp.data ++ fr.bytes, q + fr.bytes.length⟩ }) := by
  obtain ⟨TAG, mode, os, uc, ucs, ⟨od, op⟩, ⟨td, tp⟩⟩ := e
  obtain ⟨hid, hfl, hsz⟩ := hwf
  simp only at hpos hdata htemp hq
  subst hpos htemp
  have hlen : fr.bytes.length = 10 + fr.size := fr.bytes_length ⟨hid, hfl, hsz⟩
  simp only [Frame.bytes, List.append_assoc] at hdata
  have r1 := fread_at (uninit stack 5) od q 4 fr.id _ hdata hid
  have d1 := drop_at od q 4 fr.id _ hdata hid
  have r2 := fread_full (uninit stack 4) od (q + 4) 4 (be32 fr.size) _ d1 rfl (uninit_length _ _)
  have d2 := drop_at od (q + 4) 4 (be32 fr.size) _ d1 rfl
  have r3 := fread_full (uninit stack 3) od (q + 4 + 4) 3 fr.flags _ d2 hfl (uninit_length _ _)
  have d3 := drop_at od (q + 4 + 4) 3 fr.flags _ d2 hfl
  have hn : size_t (((fr.size : Nat) : Int) - 1) = fr.content.length := size_t_pred _ (by
    unfold Frame.size at hsz; omega)
  have r4 := fread_full (uninit stack fr.content.length) od (q + 4 + 4 + 3) fr.content.length
    fr.content rest d3 rfl (uninit_length _ _)
  have w1 := fwrite_app fr.id (List.drop 4 (uninit stack 5)) td 4 hid
  have w2 := fwrite_all (be32 fr.size) (td ++ fr.id) 4 rfl
  have w3 := fwrite_all fr.flags (td ++ fr.id ++ be32 fr.size) 3 hfl
  have w4 := fwrite_all fr.content (td ++ fr.id ++ be32 fr.size ++ fr.flags) fr.content.length rfl
  simp only [List.length_append, hid, hfl, be32_length] at w2 w3 w4
  simp only [skip_tag, fseek_back, r1, r2, convert_be32 fr.size hsz, r3, hn, r4, ftell, w1, w2,
    w3, w4]
  rw [if_pos (by omega)]
  have hlen2 : fr.bytes.length = 11 + fr.content.length := by
    rw [hlen, Frame.size]; omega
  rw [hlen2]
  simp only [Frame.bytes, List.append_assoc]
  have e1 : q + 4 + 4 + 3 + fr.content.length = q + (11 + fr.content.length) := by omega
  rw [hq, e1]

theorem fseek_size (d : List Byte) (q n : Nat) :
    fseek ⟨d, q + 4 + 4 + 3⟩ ((n : Int) - 1) = ⟨d, q + 10 + n⟩ := by
  simp only [fseek]
  rw [if_pos (by push_cast; omega)]
  congr 1
  push_cast
  omega

theorem int_of_mem_of_int (x : Int) (h1 : -2 ^ 31 ≤ x) (h2 : x < 2 ^ 31) :
    int_of_mem (mem_of_int x) = x := by
  simp only [mem_of_int, int_of_mem, List.getD_cons_zero, List.getD_cons_succ, Fin.ofNat]
  have hu : (x % 2 ^ 32).toNat % 256 + 256 * ((x % 2 ^ 32).toNat / 256 % 256)
      + 65536 * ((x % 2 ^ 32).toNat / 65536 % 256)
      + 16777216 * ((x % 2 ^ 32).toNat / 16777216 % 256) = (x % 2 ^ 32).toNat := by omega
  simp only [Nat.reducePow, Nat.reduceAdd] at hu ⊢
  rw [hu]
  split <;> omega

theorem int_sub_nat (n : Nat) (h : n < 2 ^ 31) : int_sub (n : Int) 1 = (n : Int) - 1 := by
  unfold int_sub
  exact int_of_mem_of_int _ (by omega) (by omega)

/-- The function `do_edit` on a frame header of 11 bytes, whatever follows it. -/
theorem do_edit_at (stack : Nat → Byte) (e : EditInfo) (id flags tail : List Byte) (n q : Nat)
    (hid : id.length = 4) (hfl : flags.length = 3) (hn : n < 2 ^ 31)
    (hpos : e.fptr_original.pos = q + 4)
    (hdata : e.fptr_original.data.drop q = id ++ be32 n ++ flags ++ tail)
    (htemp : e.fptr_temp.pos = e.fptr_temp.data.length) :
    (do_edit stack e).1 = e_success ∧
    (do_edit stack e).2.fptr_original.data = e.fptr_original.data ∧
    (do_edit stack e).2.fptr_temp.data = e.fptr_temp.data ++ id
      ++ be32 (strlen e.user_content + 1) ++ flags ++ cstr e.user_content
      ++ e.fptr_original.data.drop (q + 10 + n) ∧
    (do_edit stack e).2.fptr_temp.pos = (do_edit stack e).2.fptr_temp.data.length := by
  obtain ⟨TAG, mode, os, uc, ucs, ⟨od, op⟩, ⟨td, tp⟩⟩ := e
  simp only at hpos hdata htemp
  subst hpos htemp
  simp only [List.append_assoc] at hdata
  have r1 := fread_at (uninit stack 5) od q 4 id _ hdata hid
  have d1 := drop_at od q 4 id _ hdata hid
  have r2 := fread_full (uninit stack 4) od (q + 4) 4 (be32 n) _ d1 rfl (uninit_length _ _)
  have d2 := drop_at od (q + 4) 4 (be32 n) _ d1 rfl
  have r3 := fread_full (uninit stack 3) od (q + 4 + 4) 3 flags _ d2 hfl (uninit_length _ _)
  have w1 := fwrite_app id (List.drop 4 (uninit stack 5)) td 4 hid
  have w2 := fwrite_all (be32 (strlen uc + 1)) (td ++ id) 4 rfl
  have w3 := fwrite_all flags (td ++ id ++ be32 (strlen uc + 1)) 3 hfl
  have w4 := fwrite_app (cstr uc) (uc.drop (strlen uc))
    (td ++ id ++ be32 (strlen uc + 1) ++ flags) (strlen uc) rfl
  rw [← take_cstr uc, List.take_append_drop] at w4
  simp only [List.length_append, hid, hfl, be32_length] at w2 w3 w4
  have hc := copy_bytes_eq (od.length - (q + 10 + n)) od (q + 10 + n)
    (td ++ id ++ be32 (strlen uc + 1) ++ flags ++ List.take (strlen uc) uc)
    (td.length + 4 + 4 + 3 + strlen uc) rfl (by
      simp [hid, hfl, be32_length, Nat.min_eq_left (strlen_le uc)]
      omega)
  have hc2 : List.take (td.length + 4 + 4 + 3 + strlen uc)
      (td ++ id ++ be32 (strlen uc + 1) ++ flags ++ List.take (strlen uc) uc)
      = td ++ id ++ be32 (strlen uc + 1) ++ flags ++ List.take (strlen uc) uc := by
    apply List.take_of_length_le
    simp [hid, hfl, be32_length, Nat.min_eq_left (strlen_le uc)]
    omega
  have hc3 : List.drop (td.length + 4 + 4 + 3 + strlen uc + (od.length - (q + 10 + n)))
      (td ++ id ++ be32 (strlen uc + 1) ++ flags ++ List.take (strlen uc) uc) = [] := by
    apply List.drop_eq_nil_of_le
    simp [hid, hfl, be32_length, Nat.min_eq_left (strlen_le uc)]
    omega
  rw [hc2, hc3, List.append_nil] at hc
  simp only [do_edit, fseek_back, r1, r2, r3, w1]
  rw [new_size_bytes, w2, w3, w4, convert_be32 n hn, int_sub_nat n hn, fseek_size]
  simp only [take_cstr] at hc
  simp only [copy_remaining_data, take_cstr, hc, if_true]
  simp [hid, hfl, be32_length, strlen]
  omega

theorem cstr_id (id : List Byte) (h : ∀ b ∈ id, b ≠ 0) (tl : List Byte) :
    cstr (id ++ 0 :: tl) = id := by
  unfold cstr
  rw [List.takeWhile_append_of_pos]
  · simp
  · intro b hb
    simpa using h b hb

theorem cstr_ne_zero (s : List Byte) : ∀ b ∈ cstr s, b ≠ 0 := by
  intro b hb
  have := List.mem_takeWhile_imp hb
  simpa using this

theorem strcmp_tag (id mode : List Byte) (hid : id.length = 4) (hm : (cstr mode).length = 4) :
    strcmp_eq (id ++ [0]) mode = true ↔ id = cstr mode := by
  unfold strcmp_eq
  rw [beq_iff_eq]
  constructor
  · intro h
    have hp : cstr (id ++ [0]) <+: id ++ [0] := List.takeWhile_prefix _
    rw [List.prefix_iff_eq_take, h, hm, ← hid] at hp
    simpa using hp.symm
  · intro h
    rw [cstr_id id (by rw [h]; exact cstr_ne_zero mode)]
    exact h

theorem frames_bytes_cons (fr : Frame) (frs : List Frame) :
    frames_bytes (fr :: frs) = fr.bytes ++ frames_bytes frs := rfl

theorem compare_tag_loop_skip (stack : Nat → Byte) (pre : List Frame) :
    ∀ (i : Nat) (e : EditInfo) (rest : List Byte),
    (∀ fr ∈ pre, fr.wf ∧ fr.id ≠ cstr e.mode) → (cstr e.mode).length = 4 →
    e.TAG.drop 4 = [0] →
    e.fptr_temp.pos = e.fptr_temp.data.length →
    e.fptr_original.pos = e.fptr_temp.data.length →
    e.fptr_original.data.drop e.fptr_original.pos = frames_bytes pre ++ rest →
    ∃ e', compare_tag_loop stack (pre.length + i) e = compare_tag_loop stack i e' ∧
      e'.mode = e.mode ∧ e'.user_content = e.user_content ∧ e'.TAG.drop 4 = [0] ∧
      e'.fptr_original
        = ⟨e.fptr_original.data, e.fptr_original.pos + (frames_bytes pre).length⟩ ∧
      e'.fptr_temp = ⟨e.fptr_temp.data ++ frames_bytes pre,
        e.fptr_temp.data.length + (frames_bytes pre).length⟩ := by
  induction pre with
  | nil =>
    intro i e rest _ _ hT ht _ _
    refine ⟨e, by simp, rfl, rfl, hT, ?_, ?_⟩
    · simp [frames_bytes]
    · obtain ⟨TAG, mode, os, uc, ucs, ⟨od, op⟩, ⟨td, tp⟩⟩ := e
      simp only at ht
      simp [frames_bytes, ht]
  | cons fr frs ih =>
    intro i e rest hpre hm hT ht ho hdata
    obtain ⟨TAG, mode, os, uc, ucs, ⟨od, op⟩, ⟨td, tp⟩⟩ := e
    simp only at hm hT ht ho hdata hpre
    subst ht ho
    obtain ⟨hwf, hne⟩ := hpre fr (List.mem_cons_self _ _)
    have hid := hwf.1
    have hdata2 : od.drop td.length = fr.id ++ (be32 fr.size ++ fr.flags ++ fr.content
        ++ (frames_bytes frs ++ rest)) := by
      rw [hdata, frames_bytes_cons, Frame.bytes]
      simp only [List.append_assoc]
    have hdata3 : od.drop td.length = fr.bytes ++ (frames_bytes frs ++ rest) := by
      rw [hdata, frames_bytes_cons, List.append_assoc]
    have r0 := fread_at TAG od td.length 4 fr.id _ hdata2 hid
    have hs : strcmp_eq (fr.id ++ [0]) mode = false := by
      rw [Bool.eq_false_iff]
      intro h
      exact hne ((strcmp_tag fr.id mode hid hm).1 h)
    have hk := skip_tag_frame stack
      ⟨fr.id ++ [0], mode, os, uc, ucs, ⟨od, td.length + 4⟩, ⟨td, td.length⟩⟩
      fr (frames_bytes frs ++ rest) td.length hwf rfl hdata3 rfl rfl
    have hstep : compare_tag_loop stack ((fr :: frs).length + i)
          ⟨TAG, mode, os, uc, ucs, ⟨od, td.length⟩, ⟨td, td.length⟩⟩
        = compare_tag_loop stack (frs.length + i)
          ⟨fr.id ++ [0], mode, os, uc, ucs, ⟨od, td.length + fr.bytes.length⟩,
            ⟨td ++ fr.bytes, td.length + fr.bytes.length⟩⟩ := by
      have hl : (fr :: frs).length + i = (frs.length + i) + 1 := by
        simp only [List.length_cons]; omega
      rw [hl]
      simp only [compare_tag_loop, r0, hT, hs, hk]
      rfl
    obtain ⟨e', h1, h2, h3, h4, h5, h6⟩ := ih i
      ⟨fr.id ++ [0], mode, os, uc, ucs, ⟨od, td.length + fr.bytes.length⟩,
        ⟨td ++ fr.bytes, td.length + fr.bytes.length⟩⟩ rest
      (fun f hf => hpre f (List.mem_cons_of_mem _ hf)) hm (by simp [hid])
      (by simp) (by simp)
      (drop_at od td.length fr.bytes.length fr.bytes _ hdata3 rfl)
    refine ⟨e', hstep.trans h1, h2, h3, h4, ?_, ?_⟩
    · rw [h5]
      simp [frames_bytes_cons, Nat.add_assoc]
    · rw [h6]
      simp [frames_bytes_cons, Nat.add_assoc]

theorem frames_bytes_append (a b : List Frame) :
    frames_bytes (a ++ b) = frames_bytes a ++ frames_bytes b := by
  induction a with
  | nil => rfl
  | cons fr frs ih => simp [frames_bytes_cons, ih]

theorem compare_tag_loop_match (stack : Nat → Byte) (i : Nat) (e : EditInfo)
    (id flags tail : List Byte) (n : Nat)
    (hid : id = cstr e.mode) (hm : (cstr e.mode).length = 4) (hfl : flags.length = 3)
    (hn : n < 2 ^ 31) (hT : e.TAG.drop 4 = [0])
    (ht : e.fptr_temp.pos = e.fptr_temp.data.length)
    (hdata : e.fptr_original.data.drop e.fptr_original.pos = id ++ be32 n ++ flags ++ tail) :
    (compare_tag_loop stack (i + 1) e).1 = some e_success ∧
    (compare_tag_loop stack (i + 1) e).2.fptr_original.data = e.fptr_original.data ∧
    (compare_tag_loop stack (i + 1) e).2.fptr_temp.data = e.fptr_temp.data ++ id
      ++ be32 (strlen e.user_content + 1) ++ flags ++ cstr e.user_content
      ++ e.fptr_original.data.drop (e.fptr_original.pos + 10 + n) := by
  obtain ⟨TAG, mode, os, uc, ucs, ⟨od, op⟩, ⟨td, tp⟩⟩ := e
  simp only at hid hm hT ht hdata
  subst ht
  have hid4 : id.length = 4 := by rw [hid]; exact hm
  have hdata2 : od.drop op = id ++ (be32 n ++ flags ++ tail) := by
    rw [hdata]; simp only [List.append_assoc]
  have r0 := fread_at TAG od op 4 id _ hdata2 hid4
  have hs : strcmp_eq (id ++ [0]) mode = true := (strcmp_tag id mode hid4 hm).2 hid
  have hd := do_edit_at stack ⟨id ++ [0], mode, os, uc, ucs, ⟨od, op + 4⟩, ⟨td, td.length⟩⟩
    id flags tail n op hid4 hfl hn rfl hdata rfl
  simp only [compare_tag_loop, r0, hT, hs, if_true]
  exact ⟨trivial, hd.2.1, hd.2.2.1⟩

theorem copy_header_edit_ok (stack : Nat → Byte) (TAG mode uc : List Byte) (os ucs : Int)
    (hdr rest : List Byte) (h : hdr.length = 10) :
    copy_header_edit stack ⟨TAG, mode, os, uc, ucs, ⟨hdr ++ rest, 0⟩, ⟨[], 0⟩⟩
      = (e_success, ⟨TAG, mode, os, uc, ucs, ⟨hdr ++ rest, 10⟩, ⟨hdr, 10⟩⟩) := by
  have r := fread_full (uninit stack 10) (hdr ++ rest) 0 10 hdr rest rfl h (uninit_length _ _)
  have w := fwrite_all hdr [] 10 h
  simp only [List.length_nil, List.nil_append, Nat.zero_add] at w r
  simp only [copy_header_edit, r, w, ftell, if_true]

/-- The scratch stream of an edit whose target is the frame after `pre`. -/
theorem scratch_eq (stack : Nat → Byte) (hdr : List Byte) (pre : List Frame)
    (id flags tail : List Byte) (n : Nat) (mode user_content : List Byte)
    (hh : hdr.length = 10) (hlen : pre.length < 6)
    (hpre : ∀ fr ∈ pre, fr.wf ∧ fr.id ≠ cstr mode)
    (hid : id = cstr mode) (hm : (cstr mode).length = 4) (hfl : flags.length = 3)
    (hn : n < 2 ^ 31) :
    let bytes := hdr ++ frames_bytes pre ++ (id ++ be32 n ++ flags ++ tail)
    let c := compare_tag stack (copy_header_edit stack
      (open_file (some bytes) (request mode user_content)).2).2
    c.1 = some e_success ∧ c.2.fptr_original.data = bytes ∧
    c.2.fptr_temp.data = hdr ++ frames_bytes pre ++ id ++ be32 (strlen user_content + 1)
      ++ flags ++ cstr user_content ++ (id ++ be32 n ++ flags ++ tail).drop (10 + n) := by
  intro bytes c
  have hco := copy_header_edit_ok stack [] mode user_content 0 0 hdr
    (frames_bytes pre ++ (id ++ be32 n ++ flags ++ tail)) hh
  have hbytes : bytes = hdr ++ (frames_bytes pre ++ (id ++ be32 n ++ flags ++ tail)) := by
    simp only [bytes, List.append_assoc]
  have hc : c = compare_tag_loop stack 6 ⟨malloc 5, mode, 0, user_content, 0,
      ⟨bytes, 10⟩, ⟨hdr, 10⟩⟩ := by
    simp only [c, open_file, compare_tag, request, hbytes]
    rw [hco]
  have hd0 : bytes.drop 10 = frames_bytes pre ++ (id ++ be32 n ++ flags ++ tail) := by
    rw [hbytes, ← hh]; simp
  obtain ⟨e', h1, h2, h3, h4, h5, h6⟩ := compare_tag_loop_skip stack pre (6 - pre.length)
    ⟨malloc 5, mode, 0, user_content, 0, ⟨bytes, 10⟩, ⟨hdr, 10⟩⟩
    (id ++ be32 n ++ flags ++ tail) hpre hm rfl hh.symm hh.symm hd0
  have h6' : pre.length + (6 - pre.length) = 6 := by omega
  rw [h6'] at h1
  obtain ⟨k, hk⟩ : ∃ k, 6 - pre.length = k + 1 := ⟨5 - pre.length, by omega⟩
  rw [hk] at h1
  simp only at h2 h3 h5 h6
  have hd1 : e'.fptr_original.data.drop e'.fptr_original.pos = id ++ be32 n ++ flags ++ tail := by
    rw [h5]
    exact drop_at bytes 10 _ (frames_bytes pre) _ hd0 rfl
  have hmt := compare_tag_loop_match stack k e' id flags tail n (by rw [h2]; exact hid)
    (by rw [h2]; exact hm) hfl hn h4 (by rw [h6]; simp [hh]) hd1
  rw [hc, h1]
  refine ⟨hmt.1, ?_, ?_⟩
  · rw [hmt.2.1, h5]
  · rw [hmt.2.2, h6, h3, h5]
    simp only
    have : bytes.drop (10 + (frames_bytes pre).length + 10 + n)
        = (id ++ be32 n ++ flags ++ tail).drop (10 + n) := by
      rw [Nat.add_assoc, ← List.drop_drop, drop_at bytes 10 _ (frames_bytes pre) _ hd0 rfl]
    rw [this]

/-- Copy back: the original holds the scratch stream followed by what the
original had beyond the length of the scratch stream. -/
theorem copy_back_eq (e : EditInfo) :
    (copy_data_from_temp_to_original_file e).1 = e_success ∧
    (copy_data_from_temp_to_original_file e).2.fptr_original.data
      = e.fptr_temp.data ++ e.fptr_original.data.drop e.fptr_temp.data.length := by
  obtain ⟨TAG, mode, os, uc, ucs, ⟨od, op⟩, ⟨td, tp⟩⟩ := e
  have hc := copy_bytes_eq (td.length - 0) td 0 od 0 rfl (Nat.zero_le _)
  simp only [copy_data_from_temp_to_original_file, rewind, hc, ftell, if_true]
  simp

theorem do_edit_tags_some (stack : Nat → Byte) (undef : Status) (hdr rest mode uc : List Byte)
    (hh : hdr.length = 10) :
    do_edit_tags stack undef (some (hdr ++ rest)) (request mode uc) =
      (if (compare_tag stack ⟨[], mode, 0, uc, 0, ⟨hdr ++ rest, 10⟩, ⟨hdr, 10⟩⟩).1.getD undef
          = e_failure then
        (e_failure, (compare_tag stack ⟨[], mode, 0, uc, 0, ⟨hdr ++ rest, 10⟩, ⟨hdr, 10⟩⟩).2)
      else (e_success, (copy_data_from_temp_to_original_file
        (compare_tag stack ⟨[], mode, 0, uc, 0, ⟨hdr ++ rest, 10⟩, ⟨hdr, 10⟩⟩).2).2)) := by
  have hco := copy_header_edit_ok stack [] mode uc 0 0 hdr rest hh
  simp only [do_edit_tags, open_file, request, hco, close_all_file]
  simp

theorem fread_data (ptr : List Byte) (n : Nat) (f : FILE) : (fread ptr n f).2.2.data = f.data := rfl

theorem fseek_data (f : FILE) (off : Int) : (fseek f off).data = f.data := by
  unfold fseek
  split <;> rfl

theorem fwrite_grow (ptr : List Byte) (n : Nat) (t : FILE) (h : t.pos = t.data.length) :
    (fwrite ptr n t).pos = (fwrite ptr n t).data.length ∧
    (fwrite ptr n t).data = t.data ++ ptr.take n := by
  obtain ⟨td, tp⟩ := t
  simp only at h
  subst h
  simp [fwrite]

theorem copy_bytes_grow (k : Nat) : ∀ (src dst : FILE), dst.pos = dst.data.length →
    (copy_bytes k src dst).1.data = src.data ∧
    (copy_bytes k src dst).2.pos = (copy_bytes k src dst).2.data.length ∧
    ∃ sfx, (copy_bytes k src dst).2.data = dst.data ++ sfx := by
  induction k with
  | zero =>
    intro src dst h
    exact ⟨rfl, h, [], by simp [copy_bytes]⟩
  | succ k ih =>
    intro src dst h
    simp only [copy_bytes]
    split
    · have hw := fwrite_grow (fread [0] 1 src).1 1 dst h
      obtain ⟨h1, h2, sfx, h3⟩ := ih (fread [0] 1 src).2.2 (fwrite (fread [0] 1 src).1 1 dst) hw.1
      refine ⟨h1, h2, List.take 1 (fread [0] 1 src).1 ++ sfx, ?_⟩
      rw [h3, hw.2, List.append_assoc]
    · exact ⟨rfl, h, [], by simp⟩

theorem fwrite_grow4 (p1 p2 p3 p4 : List Byte) (n1 n2 n3 n4 : Nat) (t : FILE)
    (h : t.pos = t.data.length) :
    (fwrite p4 n4 (fwrite p3 n3 (fwrite p2 n2 (fwrite p1 n1 t)))).pos
      = (fwrite p4 n4 (fwrite p3 n3 (fwrite p2 n2 (fwrite p1 n1 t)))).data.length ∧
    (fwrite p4 n4 (fwrite p3 n3 (fwrite p2 n2 (fwrite p1 n1 t)))).data
      = t.data ++ (p1.take n1 ++ p2.take n2 ++ p3.take n3 ++ p4.take n4) := by
  have w1 := fwrite_grow p1 n1 t h
  have w2 := fwrite_grow p2 n2 _ w1.1
  have w3 := fwrite_grow p3 n3 _ w2.1
  have w4 := fwrite_grow p4 n4 _ w3.1
  refine ⟨w4.1, ?_⟩
  rw [w4.2, w3.2, w2.2, w1.2]
  simp only [List.append_assoc]

theorem Grows.refl (e : EditInfo) (h : e.fptr_temp.pos = e.fptr_temp.data.length) : Grows e e :=
  ⟨rfl, h, rfl, rfl, [], by simp⟩

theorem Grows.trans {a b c : EditInfo} (h1 : Grows a b) (h2 : Grows b c) : Grows a c := by
  obtain ⟨x1, _, x3, x4, s1, x5⟩ := h1
  obtain ⟨y1, y2, y3, y4, s2, y5⟩ := h2
  exact ⟨y1.trans x1, y2, y3.trans x3, y4.trans x4, s1 ++ s2, by rw [y5, x5, List.append_assoc]⟩

theorem skip_tag_grows (stack : Nat → Byte) (e : EditInfo)
    (h : e.fptr_temp.pos = e.fptr_temp.data.length) : Grows e (skip_tag stack e).2 := by
  unfold Grows
  refine ⟨by simp only [skip_tag, fread_data, fseek_data], ?_, rfl, rfl, ?_⟩
  · exact (fwrite_grow4 _ _ _ _ _ _ _ _ _ h).1
  · exact ⟨_, (fwrite_grow4 _ _ _ _ _ _ _ _ _ h).2⟩

theorem copy_remaining_data_grows (e : EditInfo)
    (h : e.fptr_temp.pos = e.fptr_temp.data.length) : Grows e (copy_remaining_data e).2 := by
  obtain ⟨h1, h2, sfx, h3⟩ := copy_bytes_grow
    (e.fptr_original.data.length - e.fptr_original.pos) e.fptr_original e.fptr_temp h
  exact ⟨h1, h2, rfl, rfl, sfx, h3⟩

theorem do_edit_grows (stack : Nat → Byte) (e : EditInfo)
    (h : e.fptr_temp.pos = e.fptr_temp.data.length) : Grows e (do_edit stack e).2 := by
  have hw := fwrite_grow4 (fread (uninit stack 5) 4 (fseek e.fptr_original (-4))).1
    (mem_of_int (int_of_mem (convert_big_to_little_endian_for_edit
      (mem_of_int (int_of_size (strlen e.user_content + 1))))))
    (fread (uninit stack 3) 3 (fread (uninit stack 4) 4
      (fread (uninit stack 5) 4 (fseek e.fptr_original (-4))).2.2).2.2).1
    e.user_content 4 4 3 (strlen e.user_content) e.fptr_temp h
  simp only [do_edit]
  refine Grows.trans ?_ (copy_remaining_data_grows _ hw.1)
  exact ⟨by simp only [fread_data, fseek_data], hw.1, rfl, rfl, _, hw.2⟩

theorem compare_tag_loop_grows (stack : Nat → Byte) (i : Nat) : ∀ (e : EditInfo),
    e.fptr_temp.pos = e.fptr_temp.data.length → Grows e (compare_tag_loop stack i e).2 := by
  induction i with
  | zero => intro e h; exact Grows.refl e h
  | succ i ih =>
    intro e h
    simp only [compare_tag_loop]
    have g0 : ∀ e1 : EditInfo, e1 = {
        TAG := (fread e.TAG 4 e.fptr_original).1, mode := e.mode,
        old_size := e.old_size, user_content := e.user_content,
        user_content_size := e.user_content_size,
        fptr_original := (fread e.TAG 4 e.fptr_original).2.2,
        fptr_temp := e.fptr_temp } → Grows e e1 := by
      intro e1 he1
      subst he1
      exact ⟨rfl, h, rfl, rfl, [], by simp⟩
    split
    · have g := g0 _ rfl
      exact g.trans (do_edit_grows stack _ g.2.1)
    · have g := g0 _ rfl
      have g1 := skip_tag_grows stack _ g.2.1
      exact g.trans (g1.trans (ih _ g1.2.1))

theorem compare_tag_grows (stack : Nat → Byte) (e : EditInfo)
    (h : e.fptr_temp.pos = e.fptr_temp.data.length) : Grows e (compare_tag stack e).2 := by
  unfold compare_tag
  have g0 : Grows e { e with TAG := malloc 5 } := ⟨rfl, h, rfl, rfl, [], by simp⟩
  exact g0.trans (compare_tag_loop_grows stack 6 _ h)

theorem be_value_be32 (n : Nat) : be_value (be32 n) = n % 2 ^ 32 := by
  simp only [be_value, be32, List.getD_cons_zero, List.getD_cons_succ, Fin.ofNat]
  omega

theorem fread_length (ptr : List Byte) (n : Nat) (f : FILE) (h : n ≤ ptr.length) :
    (fread ptr n f).1.length = ptr.length := by
  simp only [fread, List.length_append, List.length_drop, List.length_take]
  omega

theorem tag_take_length (stack : Nat → Byte) (f : FILE) :
    (List.take 4 (fread (uninit stack 5) 4 f).1).length = 4 := by
  have h5 : (uninit stack 5).length = 5 := uninit_length stack 5
  have hl : (fread (uninit stack 5) 4 f).1.length = 5 := by
    rw [fread_length (uninit stack 5) 4 f (by omega), h5]
  rw [List.length_take, hl]
  rfl

theorem copy_remaining_data_temp (e : EditInfo)
    (h : e.fptr_temp.pos = e.fptr_temp.data.length) :
    (copy_remaining_data e).2.fptr_temp.data
      = e.fptr_temp.data ++ e.fptr_original.data.drop e.fptr_original.pos := by
  obtain ⟨TAG, mode, os, uc, ucs, ⟨od, op⟩, ⟨td, tp⟩⟩ := e
  simp only at h
  subst h
  simp only [copy_remaining_data]
  rw [copy_bytes_eq (od.length - op) od op td td.length rfl (Nat.le_refl _)]
  simp

theorem do_edit_temp (stack : Nat → Byte) (e : EditInfo)
    (h : e.fptr_temp.pos = e.fptr_temp.data.length) :
    ∃ tag sfx : List Byte, tag.length = 4 ∧
      (do_edit stack e).2.fptr_temp.data
        = e.fptr_temp.data ++ (tag ++ (be32 (strlen e.user_content + 1) ++ sfx)) := by
  have hw := fwrite_grow4 (fread (uninit stack 5) 4 (fseek e.fptr_original (-4))).1
    (mem_of_int (int_of_mem (convert_big_to_little_endian_for_edit
      (mem_of_int (int_of_size (strlen e.user_content + 1))))))
    (fread (uninit stack 3) 3 (fread (uninit stack 4) 4
      (fread (uninit stack 5) 4 (fseek e.fptr_original (-4))).2.2).2.2).1
    e.user_content 4 4 3 (strlen e.user_content) e.fptr_temp h
  have e2 : List.take 4 (be32 (strlen e.user_content + 1))
      = be32 (strlen e.user_content + 1) := rfl
  have key : ∃ sfx, (do_edit stack e).2.fptr_temp.data = e.fptr_temp.data
      ++ (List.take 4 (fread (uninit stack 5) 4 (fseek e.fptr_original (-4))).1
        ++ (be32 (strlen e.user_content + 1) ++ sfx)) := by
    simp only [do_edit]
    rw [copy_remaining_data_temp]
    · simp only
      rw [hw.2, new_size_bytes, e2]
      simp only [List.append_assoc]
      exact ⟨_, rfl⟩
    · exact hw.1
  obtain ⟨sfx, hk⟩ := key
  exact ⟨_, sfx, tag_take_length stack (fseek e.fptr_original (-4)), hk⟩

theorem storage_after_match (stack : Nat → Byte) (undef : Status) (hdr : List Byte)
    (pre : List Frame) (id flags tail : List Byte) (n : Nat) (mode user_content : List Byte)
    (hh : hdr.length = 10) (hlen : pre.length < 6)
    (hpre : ∀ fr ∈ pre, fr.wf ∧ fr.id ≠ cstr mode)
    (hid : id = cstr mode) (hm : (cstr mode).length = 4) (hfl : flags.length = 3)
    (hn : n < 2 ^ 31) :
    (do_edit_tags stack undef (some (hdr ++ frames_bytes pre ++ (id ++ be32 n ++ flags ++ tail)))
      (request mode user_content)).1 = e_success ∧
    storage_after stack undef (hdr ++ frames_bytes pre ++ (id ++ be32 n ++ flags ++ tail))
        mode user_content
      = scratch stack (hdr ++ frames_bytes pre ++ (id ++ be32 n ++ flags ++ tail))
          mode user_content
        ++ (hdr ++ frames_bytes pre ++ (id ++ be32 n ++ flags ++ tail)).drop
          (scratch stack (hdr ++ frames_bytes pre ++ (id ++ be32 n ++ flags ++ tail))
            mode user_content).length := by
  have hs := scratch_eq stack hdr pre id flags tail n mode user_content hh hlen hpre hid hm hfl hn
  simp only at hs
  have hb : hdr ++ frames_bytes pre ++ (id ++ be32 n ++ flags ++ tail)
      = hdr ++ (frames_bytes pre ++ (id ++ be32 n ++ flags ++ tail)) := by
    simp only [List.append_assoc]
  have hco := copy_header_edit_ok stack [] mode user_content 0 0 hdr
    (frames_bytes pre ++ (id ++ be32 n ++ flags ++ tail)) hh
  unfold storage_after scratch
  rw [hb] at hs ⊢
  rw [do_edit_tags_some stack undef hdr _ mode user_content hh]
  simp only [open_file, request, hco] at hs ⊢
  rw [hs.1]
  simp only [Option.getD_some, if_neg (show ¬ (e_success = e_failure) by decide)]
  rw [(copy_back_eq _).2, hs.2.1]
  exact ⟨trivial, rfl⟩

theorem compare_tag_not_found (stack : Nat → Byte) (hdr : List Byte) (six : List Frame)
    (rest mode uc : List Byte) (hh : hdr.length = 10) (h6 : six.length = 6)
    (hpre : ∀ fr ∈ six, fr.wf ∧ fr.id ≠ cstr mode) (hm : (cstr mode).length = 4) :
    (compare_tag stack ⟨[], mode, 0, uc, 0, ⟨hdr ++ (frames_bytes six ++ rest), 10⟩,
      ⟨hdr, 10⟩⟩).1 = none ∧
    (compare_tag stack ⟨[], mode, 0, uc, 0, ⟨hdr ++ (frames_bytes six ++ rest), 10⟩,
      ⟨hdr, 10⟩⟩).2.fptr_temp.data = hdr ++ frames_bytes six ∧
    (compare_tag stack ⟨[], mode, 0, uc, 0, ⟨hdr ++ (frames_bytes six ++ rest), 10⟩,
      ⟨hdr, 10⟩⟩).2.fptr_original.data = hdr ++ (frames_bytes six ++ rest) := by
  have hd0 : (hdr ++ (frames_bytes six ++ rest)).drop 10 = frames_bytes six ++ rest := by
    rw [← hh]; simp
  obtain ⟨e', h1, _, _, _, h5, h6'⟩ := compare_tag_loop_skip stack six 0
    ⟨malloc 5, mode, 0, uc, 0, ⟨hdr ++ (frames_bytes six ++ rest), 10⟩, ⟨hdr, 10⟩⟩
    rest hpre hm rfl hh.symm hh.symm hd0
  rw [h6] at h1
  have hc : compare_tag stack ⟨[], mode, 0, uc, 0, ⟨hdr ++ (frames_bytes six ++ rest), 10⟩,
      ⟨hdr, 10⟩⟩ = (none, e') := by
    unfold compare_tag
    exact h1
  rw [hc]
  simp only at h5 h6'
  exact ⟨rfl, by rw [h6'], by rw [h5]⟩

theorem drop_zero_size (id flags tail : List Byte) (hid : id.length = 4)
    (hfl : flags.length = 3) :
    (id ++ be32 0 ++ flags ++ tail).drop (10 + 0) = flags.drop 2 ++ tail := by
  have h8 : 10 + 0 = (id ++ be32 0).length + 2 := by simp [hid, be32_length]
  rw [h8, List.append_assoc, ← List.drop_drop, List.drop_left,
    List.drop_append_of_le_length (by omega)]

theorem version_reader_magic (rest : List Byte) :
    (version_reader ⟨[], 0, [], [], ⟨[73, 68, 51] ++ rest, 0⟩⟩).1 = e_success := by
  have r := fread_full (malloc 3) ([73, 68, 51] ++ rest) 0 3 [73, 68, 51] rest rfl rfl rfl
  simp only [version_reader, r]
  rfl

theorem view_tags_magic (stack : Nat → Byte) (rest : List Byte) :
    (view_tags stack e_success (some ([73, 68, 51] ++ rest))).1 = none := by
  have h := version_reader_magic rest
  unfold view_tags
  simp only [open_files]
  rw [if_neg (by decide), if_neg (by rw [h]; decide)]
  rfl

/-! ## The sample data -/

theorem sample_artist : sample = header0 ++ frames_bytes (frames0.take 1)
    ++ ([84, 80, 69, 49] ++ be32 6 ++ [0, 0, 0]
      ++ ([65, 66, 0, 0, 0] ++ (frames_bytes (frames0.drop 2) ++ trailing0))) := by
  decide

theorem sample_title : sample = header0 ++ frames_bytes [] ++ ([84, 73, 84, 50] ++ be32 5
    ++ [0, 0, 0] ++ ([83, 111, 110, 103] ++ (frames_bytes (frames0.drop 1) ++ trailing0))) := by
  decide

set_option maxRecDepth 100000 in
theorem storage_title_255 : storage_after stack0 e_success sample TIT2 (List.replicate 255 65)
    = header0 ++ ([84, 73, 84, 50] ++ [0, 0, 1, 0] ++ [0, 0, 0] ++ List.replicate 255 65)
      ++ frames_bytes (frames0.drop 1) ++ trailing0 := by
  have h := (storage_after_match stack0 e_success header0 [] [84, 73, 84, 50] [0, 0, 0]
    ([83, 111, 110, 103] ++ (frames_bytes (frames0.drop 1) ++ trailing0)) 5 TIT2
    (List.replicate 255 65) (by decide) (by decide) (by decide) (by decide) (by decide)
    (by decide) (by decide)).2
  have hs := (scratch_eq stack0 header0 [] [84, 73, 84, 50] [0, 0, 0]
    ([83, 111, 110, 103] ++ (frames_bytes (frames0.drop 1) ++ trailing0)) 5 TIT2
    (List.replicate 255 65) (by decide) (by decide) (by decide) (by decide) (by decide)
    (by decide) (by decide)).2.2
  rw [← sample_title] at h hs
  rw [h]
  unfold scratch
  rw [hs]
  decide

/-! ## Codec, command line and status lemmas -/

theorem convert_twice (p : List Byte) :
    convert_big_to_little_endian_for_edit (convert_big_to_little_endian_for_edit p) = p := by
  match p with
  | [] => rfl
  | [_] => rfl
  | [_, _] => rfl
  | [_, _, _] => rfl
  | [_, _, _, _] => rfl
  | _ :: _ :: _ :: _ :: _ :: _ => rfl

theorem convert_length (p : List Byte) (h : p.length = 4) :
    (convert_big_to_little_endian_for_edit p).length = 4 := by
  match p, h with
  | [_, _, _, _], _ => rfl

theorem decode_wire (b0 b1 b2 b3 : Byte) :
    int_of_mem (convert_big_to_little_endian_for_edit [b0, b1, b2, b3])
      = (if be_value [b0, b1, b2, b3] < 2 ^ 31 then (be_value [b0, b1, b2, b3] : Int)
          else (be_value [b0, b1, b2, b3] : Int) - 2 ^ 32) := by
  simp only [convert_big_to_little_endian_for_edit, int_of_mem, be_value, List.getD_cons_zero,
    List.getD_cons_succ]
  have h : b3.val + 256 * b2.val + 65536 * b1.val + 16777216 * b0.val
      = 16777216 * b0.val + 65536 * b1.val + 256 * b2.val + b3.val := by omega
  rw [h]

theorem be_value_lt (b0 b1 b2 b3 : Byte) : be_value [b0, b1, b2, b3] < 2 ^ 32 := by
  simp only [be_value, List.getD_cons_zero, List.getD_cons_succ]
  have h0 := b0.isLt
  have h1 := b1.isLt
  have h2 := b2.isLt
  have h3 := b3.isLt
  omega

theorem copy_remaining_data_old_size (e : EditInfo) :
    (copy_remaining_data e).2.old_size = e.old_size := rfl

theorem do_edit_old_size (stack : Nat → Byte) (e : EditInfo) (id rest : List Byte)
    (b0 b1 b2 b3 : Byte) (q : Nat) (hid : id.length = 4)
    (hpos : e.fptr_original.pos = q + 4)
    (hdata : e.fptr_original.data.drop q = id ++ [b0, b1, b2, b3] ++ rest) :
    (do_edit stack e).2.old_size
      = int_of_mem (convert_big_to_little_endian_for_edit [b0, b1, b2, b3]) := by
  obtain ⟨TAG, mode, os, uc, ucs, ⟨od, op⟩, ⟨td, tp⟩⟩ := e
  simp only at hpos hdata
  subst hpos
  simp only [List.append_assoc] at hdata
  have r1 := fread_at (uninit stack 5) od q 4 id _ hdata hid
  have d1 := drop_at od q 4 id _ hdata hid
  have r2 := fread_full (uninit stack 4) od (q + 4) 4 [b0, b1, b2, b3] _ d1 rfl
    (uninit_length _ _)
  simp only [do_edit, fseek_back, r1, r2, copy_remaining_data_old_size]

theorem take_fread_length (ptr : List Byte) (n k : Nat) (f : FILE) (hk : k ≤ n)
    (hn : n ≤ ptr.length) (hp : ptr.length = n) : (List.take k (fread ptr n f).1).length = k := by
  rw [List.length_take, fread_length ptr n f hn, hp]
  exact Nat.min_eq_left hk

theorem skip_tag_temp_length (stack : Nat → Byte) (e : EditInfo)
    (h : e.fptr_temp.pos = e.fptr_temp.data.length) :
    (skip_tag stack e).2.fptr_temp.data.length = e.fptr_temp.data.length + 11
      + size_t (int_of_mem (convert_big_to_little_endian_for_edit
          (fread (uninit stack 4) 4
            (fread (uninit stack 5) 4 (fseek e.fptr_original (-4))).2.2).1) - 1) := by
  simp only [skip_tag]
  rw [(fwrite_grow4 _ _ _ _ _ _ _ _ _ h).2]
  simp only [List.length_append]
  rw [tag_take_length, take_fread_length (uninit stack 4) 4 4 _ (Nat.le_refl _)
      (by rw [uninit_length]) (uninit_length _ _),
    take_fread_length (uninit stack 3) 3 3 _ (Nat.le_refl _)
      (by rw [uninit_length]) (uninit_length _ _),
    take_fread_length (uninit stack _) _ _ _ (Nat.le_refl _)
      (by rw [uninit_length]) (uninit_length _ _)]
  omega

theorem skip_tag_size (stack : Nat → Byte) (e : EditInfo) (id rest : List Byte)
    (b0 b1 b2 b3 : Byte) (q : Nat) (hid : id.length = 4)
    (hpos : e.fptr_original.pos = q + 4)
    (hdata : e.fptr_original.data.drop q = id ++ [b0, b1, b2, b3] ++ rest)
    (h : e.fptr_temp.pos = e.fptr_temp.data.length) :
    (skip_tag stack e).2.fptr_temp.data.length = e.fptr_temp.data.length + 11
      + size_t (int_of_mem (convert_big_to_little_endian_for_edit [b0, b1, b2, b3]) - 1) := by
  rw [skip_tag_temp_length stack e h]
  obtain ⟨TAG, mode, os, uc, ucs, ⟨od, op⟩, ⟨td, tp⟩⟩ := e
  simp only at hpos hdata
  subst hpos
  simp only [List.append_assoc] at hdata
  have r1 := fread_at (uninit stack 5) od q 4 id _ hdata hid
  have d1 := drop_at od q 4 id _ hdata hid
  have r2 := fread_full (uninit stack 4) od (q + 4) 4 [b0, b1, b2, b3] _ d1 rfl
    (uninit_length _ _)
  simp only [fseek_back, r1, r2]

theorem cstr_full (v w : List Byte) (h : cstr v = w) (hl : w.length = v.length) : v = w := by
  have hp : cstr v <+: v := List.takeWhile_prefix _
  rw [h] at hp
  exact (List.IsPrefix.eq_of_length hp hl).symm

theorem fread_magic (bytes : List Byte) :
    (fread (malloc 3) 3 ⟨bytes, 0⟩).1 = bytes.take 3 ++ List.replicate (3 - bytes.length) 0 := by
  match bytes with
  | [] => rfl
  | [_] => rfl
  | [_, _] => rfl
  | _ :: _ :: _ :: _ => simp [fread, malloc]

theorem magic_mismatch (bytes : List Byte) (h : bytes.take 3 ≠ [73, 68, 51]) :
    strcmp_eq (fread (malloc 3) 3 ⟨bytes, 0⟩).1 ID3 = false := by
  rw [Bool.eq_false_iff]
  intro hs
  unfold strcmp_eq at hs
  rw [beq_iff_eq] at hs
  have hc : cstr ID3 = [73, 68, 51] := by decide
  rw [hc, fread_magic] at hs
  match bytes, h, hs with
  | [], _, hs => exact absurd (cstr_full _ _ hs rfl) (by decide)
  | [a], _, hs =>
    have hv := cstr_full _ _ hs rfl
    simp at hv
  | [a, b], _, hs =>
    have hv := cstr_full _ _ hs rfl
    simp at hv
  | a :: b :: c :: t, h, hs =>
    have hv := cstr_full _ _ hs (by simp)
    simp at hv h
    exact h hv.1 hv.2.1 hv.2.2

theorem flag_branch_none (flag : List Byte)
    (h : cstr flag ∉ [cstr flag_t, cstr flag_a, cstr flag_y, cstr flag_A, cstr flag_g,
      cstr flag_c]) : flag_branch flag = none := by
  simp only [List.mem_cons, List.mem_singleton, List.not_mem_nil, or_false, not_or] at h
  obtain ⟨h1, h2, h3, h4, h5, h6⟩ := h
  have e : ∀ f, cstr flag ≠ cstr f → strcmp_eq flag f = false := by
    intro f hf
    unfold strcmp_eq
    exact beq_false_of_ne hf
  simp only [flag_branch, e _ h1, e _ h2, e _ h3, e _ h4, e _ h5, e _ h6]
  rfl

theorem scratch_some (stack : Nat → Byte) (hdr rest mode uc : List Byte) (hh : hdr.length = 10) :
    scratch stack (hdr ++ rest) mode uc
      = (compare_tag stack ⟨[], mode, 0, uc, 0, ⟨hdr ++ rest, 10⟩, ⟨hdr, 10⟩⟩).2.fptr_temp.data := by
  have hco := copy_header_edit_ok stack [] mode uc 0 0 hdr rest hh
  simp only [scratch, open_file, request, hco]

theorem split_header (bytes : List Byte) (h : 10 ≤ bytes.length) :
    ∃ hdr rest, bytes = hdr ++ rest ∧ hdr.length = 10 :=
  ⟨bytes.take 10, bytes.drop 10, (List.take_append_drop 10 bytes).symm, by simp [h]⟩

/-- When `do_edit_tags` returns `e_success` the file holds the scratch stream,
followed by what the old file had beyond the length of the scratch stream. -/
theorem storage_after_of_success (stack : Nat → Byte) (undef : Status)
    (bytes mode uc : List Byte) (h10 : 10 ≤ bytes.length)
    (hs : (do_edit_tags stack undef (some bytes) (request mode uc)).1 = e_success) :
    storage_after stack undef bytes mode uc
      = scratch stack bytes mode uc ++ bytes.drop (scratch stack bytes mode uc).length := by
  obtain ⟨hdr, rest, hb, hh⟩ := split_header bytes h10
  subst hb
  unfold storage_after
  rw [scratch_some stack hdr rest mode uc hh]
  rw [do_edit_tags_some stack undef hdr rest mode uc hh] at hs ⊢
  have g := compare_tag_grows stack ⟨[], mode, 0, uc, 0, ⟨hdr ++ rest, 10⟩, ⟨hdr, 10⟩⟩ hh.symm
  split at hs
  · exact Status.noConfusion hs
  · rw [if_neg (by assumption)]
    simp only
    rw [(copy_back_eq _).2, g.1]

/-- When `do_edit_tags` returns `e_failure` the file is what it was. -/
theorem storage_after_of_failure (stack : Nat → Byte) (undef : Status)
    (bytes mode uc : List Byte)
    (hs : (do_edit_tags stack undef (some bytes) (request mode uc)).1 = e_failure) :
    storage_after stack undef bytes mode uc = bytes := by
  unfold storage_after
  simp only [do_edit_tags, open_file, request, close_all_file] at hs ⊢
  rw [if_neg (by decide)] at hs ⊢
  have hd : (copy_header_edit stack ⟨[], mode, 0, uc, 0, ⟨bytes, 0⟩, ⟨[], 0⟩⟩).2.fptr_original.data
      = bytes := rfl
  have hp : (copy_header_edit stack ⟨[], mode, 0, uc, 0, ⟨bytes, 0⟩, ⟨[], 0⟩⟩).2.fptr_temp.pos
      = (copy_header_edit stack ⟨[], mode, 0, uc, 0, ⟨bytes, 0⟩, ⟨[], 0⟩⟩).2.fptr_temp.data.length :=
    (fwrite_grow _ 10 ⟨[], 0⟩ rfl).1
  split
  · exact hd
  · rw [if_neg (by assumption)] at hs
    split
    · simp only
      rw [(compare_tag_grows stack _ hp).1, hd]
    · rw [if_neg (by assumption)] at hs
      exact Status.noConfusion hs

/-! ## Catalog, positions, closed form of the storage, and the walk over the frames -/

theorem flag_branch_some (flag : List Byte) (p : List Byte × List Byte)
    (h : flag_branch flag = some p) :
    p ∈ [(TITLE, TIT2), (ARTIST, TPE1), (YEAR, TYER), (ALBUM, TALB), (GENRE, TCON),
      (COMMENT, COMM)] := by
  unfold flag_branch at h
  split_ifs at h <;> first
    | exact Option.noConfusion h
    | (cases h; simp)

theorem label_some (TAG : List Byte) (f : Field) (h : label TAG = some f) :
    (f, cstr TAG) ∈ [(Field.TITLE, cstr TIT2), (Field.ARTIST, cstr TPE1),
      (Field.ALBUM, cstr TALB), (Field.YEAR, cstr TYER), (Field.GENRE, cstr TCON),
      (Field.COMMENT, cstr COMM)] := by
  unfold label at h
  split_ifs at h with h1 h2 h3 h4 h5 h6
  · cases h; simp [strcmp_eq] at h1; simp [h1]
  · cases h; simp [strcmp_eq] at h2; simp [h2]
  · cases h; simp [strcmp_eq] at h3; simp [h3]
  · cases h; simp [strcmp_eq] at h4; simp [h4]
  · cases h; simp [strcmp_eq] at h5; simp [h5]
  · cases h; simp [strcmp_eq] at h6; simp [h6]

theorem validate_edit_some (a0 a1 flag a3 a4 : List Byte) (editInfo : EditInfo)
    (names : EditNames)
    (h : (read_and_validate_for_edit [a0, a1, flag, a3, a4] editInfo names).1 = e_success) :
    flag_branch flag = some
      ((read_and_validate_for_edit [a0, a1, flag, a3, a4] editInfo names).2.2.user_tag,
       (read_and_validate_for_edit [a0, a1, flag, a3, a4] editInfo names).2.1.mode) := by
  simp only [read_and_validate_for_edit, List.getD_cons_zero, List.getD_cons_succ] at h ⊢
  cases hb : flag_branch flag with
  | none => rw [hb] at h; exact Status.noConfusion h
  | some p =>
    obtain ⟨tag, mode⟩ := p
    rw [hb] at h
    simp only at h ⊢
    split_ifs at h ⊢
    rfl

theorem validate_edit_flag (a0 a1 flag a3 a4 tag mode : List Byte) (editInfo : EditInfo)
    (names : EditNames) (h : flag_branch flag = some (tag, mode)) :
    (read_and_validate_for_edit [a0, a1, flag, a3, a4] editInfo names).2.1.mode = mode := by
  simp only [read_and_validate_for_edit, List.getD_cons_zero, List.getD_cons_succ, h]
  split
  · split <;> rfl
  · rfl

theorem fread_pos (ptr : List Byte) (n : Nat) (f : FILE) :
    (fread ptr n f).2.2.pos = f.pos + min n (f.data.length - f.pos) := by
  simp [fread, List.length_take, List.length_drop]

theorem fwrite_pos (ptr : List Byte) (n : Nat) (f : FILE) :
    (fwrite ptr n f).pos = f.pos + min n ptr.length := by
  simp [fwrite, List.length_take]

theorem fread_buffer_length (stack : Nat → Byte) (n : Nat) (f : FILE) :
    (fread (uninit stack n) n f).1.length = n := by
  rw [fread_length _ _ _ (by rw [uninit_length]), uninit_length]

theorem skip_tag_status (stack : Nat → Byte) (e : EditInfo) (id rest : List Byte) (n q : Nat)
    (hid : id.length = 4) (h1 : 1 ≤ n) (hn : n < 2 ^ 31)
    (hpos : e.fptr_original.pos = q + 4)
    (hdata : e.fptr_original.data.drop q = id ++ be32 n ++ rest)
    (hq : e.fptr_temp.pos = q) :
    (skip_tag stack e).1 = (if rest.length < 3 + (n - 1) then e_failure else e_success) ∧
    e.fptr_original.data.length = q + 8 + rest.length := by
  obtain ⟨TAG, mode, os, uc, ucs, ⟨od, op⟩, ⟨td, tp⟩⟩ := e
  simp only at hpos hdata hq
  subst hpos hq
  have hlen : od.length = tp + 8 + rest.length := by
    have := congrArg List.length hdata
    simp only [List.length_drop, List.length_append, hid, be32_length] at this
    omega
  simp only [List.append_assoc] at hdata
  have r1 := fread_at (uninit stack 5) od tp 4 id _ hdata hid
  have d1 := drop_at od tp 4 id _ hdata hid
  have r2 := fread_full (uninit stack 4) od (tp + 4) 4 (be32 n) _ d1 rfl (uninit_length _ _)
  have hsz : size_t ((n : Int) - 1) = n - 1 := by
    obtain ⟨m, rfl⟩ : ∃ m, n = m + 1 := ⟨n - 1, by omega⟩
    rw [size_t_pred m (by omega)]
    rfl
  refine ⟨?_, hlen⟩
  simp only [skip_tag, fseek_back, r1, r2, convert_be32 n hn, hsz, ftell, fread_pos, fwrite_pos, fread_data,
    fread_buffer_length, hlen, List.length_append, hid, List.length_drop, uninit_length,
    be32_length]
  by_cases hr : rest.length < 3 + (n - 1)
  · rw [if_pos hr, if_neg (by omega)]
  · rw [if_neg hr, if_pos (by omega)]

theorem version_reader_pos (bytes : List Byte) (viInfo : ViewInfo)
    (h : (version_reader (open_files (some bytes) viInfo).2).1 = e_success) :
    (version_reader (open_files (some bytes) viInfo).2).2.fptr_src_song = ⟨bytes, 10⟩ := by
  by_cases hm : bytes.take 3 = [73, 68, 51]
  · have hb : bytes = [73, 68, 51] ++ bytes.drop 3 := by
      rw [← hm, List.take_append_drop]
    generalize bytes.drop 3 = rest at hb
    subst hb
    have r := fread_full (malloc 3) ([73, 68, 51] ++ rest) 0 3 [73, 68, 51] rest rfl rfl rfl
    simp only [version_reader, open_files, r]
    rfl
  · have hmm := magic_mismatch bytes hm
    simp only [version_reader, open_files, hmm] at h
    exact Status.noConfusion h

theorem copy_header_edit_pos (stack : Nat → Byte) (bytes : List Byte) (editInfo : EditInfo)
    (h : (copy_header_edit stack (open_file (some bytes) editInfo).2).1 = e_success) :
    (copy_header_edit stack (open_file (some bytes) editInfo).2).2.fptr_original = ⟨bytes, 10⟩ ∧
    (copy_header_edit stack (open_file (some bytes) editInfo).2).2.fptr_temp
      = ⟨bytes.take 10, 10⟩ := by
  have h10 : 10 ≤ bytes.length := by
    by_contra hc
    simp only [copy_header_edit, open_file, ftell, fread_pos, fwrite_pos, fread_buffer_length] at h
    split at h
    · omega
    · exact Status.noConfusion h
  obtain ⟨hdr, rest, rfl, hh⟩ := split_header bytes h10
  obtain ⟨TAG, mode, os, uc, ucs, fo, ft⟩ := editInfo
  have := copy_header_edit_ok stack TAG mode uc os ucs hdr rest hh
  simp only [open_file]
  rw [this]
  have ht : (hdr ++ rest).take 10 = hdr := by rw [← hh, List.take_left]
  rw [ht]
  exact ⟨rfl, rfl⟩

theorem storage_after_frame (stack : Nat → Byte) (undef : Status) (hdr : List Byte)
    (pre : List Frame) (id flags c rest mode uc : List Byte)
    (hh : hdr.length = 10) (hlen : pre.length < 6)
    (hpre : ∀ fr ∈ pre, fr.wf ∧ fr.id ≠ cstr mode)
    (hid : id = cstr mode) (hm : (cstr mode).length = 4) (hfl : flags.length = 3)
    (hn : c.length + 1 < 2 ^ 31) :
    storage_after stack undef
        (hdr ++ frames_bytes pre ++ (id ++ be32 (c.length + 1) ++ flags ++ (c ++ rest))) mode uc
      = hdr ++ frames_bytes pre ++ (id ++ be32 (strlen uc + 1) ++ flags
          ++ (cstr uc ++ (rest ++ (c ++ rest).drop ((cstr uc).length + rest.length)))) := by
  have h := (storage_after_match stack undef hdr pre id flags (c ++ rest) (c.length + 1) mode uc
    hh hlen hpre hid hm hfl hn).2
  have hs := (scratch_eq stack hdr pre id flags (c ++ rest) (c.length + 1) mode uc
    hh hlen hpre hid hm hfl hn).2.2
  have hi : id.length = 4 := by rw [hid]; exact hm
  have hd : (id ++ be32 (c.length + 1) ++ flags ++ (c ++ rest)).drop (10 + (c.length + 1))
      = rest := by
    have e : 10 + (c.length + 1) = (id ++ be32 (c.length + 1) ++ flags ++ c).length := by
      simp only [List.length_append, hi, be32_length, hfl]
      omega
    rw [e, ← List.append_assoc, List.drop_left]
  have hsc : scratch stack
      (hdr ++ frames_bytes pre ++ (id ++ be32 (c.length + 1) ++ flags ++ (c ++ rest))) mode uc
      = (hdr ++ frames_bytes pre ++ (id ++ be32 (strlen uc + 1) ++ flags)) ++ (cstr uc ++ rest) := by
    unfold scratch
    rw [hs, hd]
    simp only [List.append_assoc]
  have hb : hdr ++ frames_bytes pre ++ (id ++ be32 (c.length + 1) ++ flags ++ (c ++ rest))
      = (hdr ++ frames_bytes pre ++ (id ++ be32 (c.length + 1) ++ flags)) ++ (c ++ rest) := by
    simp only [List.append_assoc]
  have hl : ((hdr ++ frames_bytes pre ++ (id ++ be32 (strlen uc + 1) ++ flags))
      ++ (cstr uc ++ rest)).length
      = (hdr ++ frames_bytes pre ++ (id ++ be32 (c.length + 1) ++ flags)).length
        + ((cstr uc).length + rest.length) := by
    simp only [List.length_append, be32_length]
  rw [h, hsc, hl, hb, List.drop_append]
  simp only [List.append_assoc]

theorem layout_ids (frs : List Frame) : ∀ off : Nat,
    (layout off frs).map Prod.snd = frs.map Frame.id := by
  induction frs with
  | nil => intro off; rfl
  | cons fr frs ih =>
    intro off
    simp only [layout, List.map_cons, ih]

theorem layout_append (a b : List Frame) : ∀ off : Nat,
    layout off (a ++ b) = layout off a ++ layout (off + (frames_bytes a).length) b := by
  induction a with
  | nil => intro off; rfl
  | cons fr frs ih =>
    intro off
    show (off, fr.id) :: layout (off + fr.bytes.length) (frs ++ b) = _
    rw [ih]
    simp only [layout, frames_bytes, List.length_append, Nat.add_assoc, List.cons_append]

theorem layout_length (frs : List Frame) : ∀ off : Nat, (layout off frs).length = frs.length := by
  induction frs with
  | nil => intro off; rfl
  | cons fr frs ih =>
    intro off
    simp only [layout, List.length_cons, ih]

theorem layout_shift (frs : List Frame) : ∀ off off2 : Nat,
    (layout off2 frs).map (fun p => (p.1 : Int))
      = (layout off frs).map (fun p => (p.1 : Int) + ((off2 : Int) - (off : Int))) := by
  induction frs with
  | nil => intro off off2; rfl
  | cons fr frs ih =>
    intro off off2
    simp only [layout, List.map_cons, ih (off + fr.bytes.length) (off2 + fr.bytes.length)]
    congr 1
    · omega
    · apply List.map_congr_left
      intro p _
      push_cast
      omega

theorem walk_layout (frs : List Frame) : ∀ (pre rest : List Byte), (∀ fr ∈ frs, fr.wf) →
    walk frs.length (pre ++ frames_bytes frs ++ rest) pre.length = layout pre.length frs := by
  induction frs with
  | nil => intro pre rest _; rfl
  | cons fr frs ih =>
    intro pre rest hwf
    obtain ⟨hid, hfl, hsz⟩ := hwf fr (by simp)
    have hlen := fr.bytes_length ⟨hid, hfl, hsz⟩
    have hb : pre ++ frames_bytes (fr :: frs) ++ rest
        = pre ++ (fr.id ++ (be32 fr.size ++ (fr.flags ++ fr.content ++ frames_bytes frs ++ rest))) := by
      simp only [frames_bytes, Frame.bytes, List.append_assoc]
    have h1 : ((pre ++ frames_bytes (fr :: frs) ++ rest).drop pre.length).take 4 = fr.id := by
      rw [hb, List.drop_left, ← hid, List.take_left]
    have h2 : ((pre ++ frames_bytes (fr :: frs) ++ rest).drop (pre.length + 4)).take 4
        = be32 fr.size := by
      have e : pre.length + 4 = (pre ++ fr.id).length := by rw [List.length_append, hid]
      rw [hb, e, ← List.append_assoc, List.drop_left]
      rfl
    have hv : be_value (be32 fr.size) = fr.size := by
      rw [be_value_be32]
      exact Nat.mod_eq_of_lt (by omega)
    have hs1 : 1 ≤ fr.size := by unfold Frame.size; omega
    have hoff : pre.length + 4 + 4 + 3 + (fr.size - 1) = (pre ++ fr.bytes).length := by
      rw [List.length_append, hlen]; omega
    have hb2 : pre ++ frames_bytes (fr :: frs) ++ rest
        = (pre ++ fr.bytes) ++ frames_bytes frs ++ rest := by
      simp only [frames_bytes, List.append_assoc]
    simp only [List.length_cons, walk, layout, h1, h2, hv, hoff]
    rw [hb2, ih (pre ++ fr.bytes) rest (fun f hf => hwf f (by simp [hf])), List.length_append]

theorem scratch_frames (stack : Nat → Byte) (header : List Byte)
    (before : List Frame) (target : Frame) (after : List Frame) (trailing : List Byte)
    (mode user_content : List Byte)
    (hheader : header.length = 10)
    (hwf : ∀ fr ∈ before ++ target :: after, fr.wf)
    (hk : before.length < 6)
    (htarget : target.id = cstr mode)
    (hfirst : ∀ fr ∈ before, fr.id ≠ cstr mode) :
    scratch stack (stream header (before ++ target :: after) trailing) mode user_content
      = stream header (before ++ ⟨target.id, target.flags, cstr user_content⟩ :: after)
          trailing := by
  have hwt : target.wf := hwf target (by simp)
  have hm : (cstr mode).length = 4 := by rw [← htarget]; exact hwt.1
  have hs := (scratch_eq stack header before target.id target.flags
    (target.content ++ (frames_bytes after ++ trailing)) target.size mode user_content
    hheader hk (fun fr hfr => ⟨hwf fr (by simp [hfr]), hfirst fr hfr⟩) htarget hm
    hwt.2.1 hwt.2.2).2.2
  have hst : stream header (before ++ target :: after) trailing
      = header ++ frames_bytes before ++ (target.id ++ be32 target.size ++ target.flags
          ++ (target.content ++ (frames_bytes after ++ trailing))) := by
    simp [stream, frames_bytes_append, frames_bytes_cons, Frame.bytes]
  have hd : (target.id ++ be32 target.size ++ target.flags
      ++ (target.content ++ (frames_bytes after ++ trailing))).drop (10 + target.size)
      = frames_bytes after ++ trailing := by
    have : 10 + target.size
        = (target.id ++ be32 target.size ++ target.flags ++ target.content).length := by
      simp [hwt.1, hwt.2.1, be32_length, Frame.size]
      omega
    rw [this, ← List.append_assoc, List.drop_left]
  rw [hst]
  unfold scratch
  rw [hs, hd]
  simp [stream, frames_bytes_append, frames_bytes_cons, Frame.bytes, Frame.size, strlen]

theorem take_mid {α : Type} (a : List α) (x : α) (b : List α) (n : Nat) (h : a.length = n) :
    (a ++ x :: b).take (n + 1) = a ++ [x] ∧ (a ++ x :: b).drop (n + 1) = b := by
  subst h
  constructor
  · rw [List.take_append]
    rfl
  · rw [List.drop_append]
    rfl

set_option maxRecDepth 1000000 in
theorem storage_sample_artist : storage_after stack0 e_success sample TPE1 xyz
    = header0 ++ frames_bytes [] ++ ([84, 73, 84, 50] ++ be32 (([83, 111, 110, 103] : List Byte).length + 1)
        ++ [0, 0, 0] ++ ([83, 111, 110, 103]
          ++ (frames_bytes (⟨[84, 80, 69, 49], [0, 0, 0], [88, 89, 90]⟩ :: frames0.drop 2)
            ++ trailing0 ++ [144, 100]))) := by
  have e : sample = header0 ++ frames_bytes (frames0.take 1)
      ++ ([84, 80, 69, 49] ++ be32 (([65, 66, 0, 0, 0] : List Byte).length + 1) ++ [0, 0, 0]
        ++ ([65, 66, 0, 0, 0] ++ (frames_bytes (frames0.drop 2) ++ trailing0))) := by decide
  rw [e, storage_after_frame stack0 e_success header0 (frames0.take 1) [84, 80, 69, 49] [0, 0, 0]
    [65, 66, 0, 0, 0] (frames_bytes (frames0.drop 2) ++ trailing0) TPE1 xyz
    (by decide) (by decide) (by decide) (by decide) (by decide) (by decide) (by decide)]
  decide

set_option maxRecDepth 1000000 in
theorem storage_sample_title : storage_after stack0 e_success sample TIT2 abc
    = header0 ++ frames_bytes [⟨[84, 73, 84, 50], [0, 0, 0], [65, 98, 99]⟩]
        ++ ([84, 80, 69, 49] ++ be32 (([65, 66, 0, 0, 0] : List Byte).length + 1) ++ [0, 0, 0]
          ++ ([65, 66, 0, 0, 0] ++ (frames_bytes (frames0.drop 2) ++ trailing0 ++ [100]))) := by
  have e : sample = header0 ++ frames_bytes []
      ++ ([84, 73, 84, 50] ++ be32 (([83, 111, 110, 103] : List Byte).length + 1) ++ [0, 0, 0]
        ++ ([83, 111, 110, 103] ++ (frames_bytes (frames0.drop 1) ++ trailing0))) := by decide
  rw [e, storage_after_frame stack0 e_success header0 [] [84, 73, 84, 50] [0, 0, 0]
    [83, 111, 110, 103] (frames_bytes (frames0.drop 1) ++ trailing0) TIT2 abc
    (by decide) (by decide) (by decide) (by decide) (by decide) (by decide) (by decide)]
  decide

set_option maxRecDepth 1000000 in
theorem storage_artist_title :
    storage_after stack0 e_success (storage_after stack0 e_success sample TPE1 xyz) TIT2 abc
      = stream header0 frames2 trailing0 ++ [144, 100, 100] := by
  rw [storage_sample_artist, storage_after_frame stack0 e_success header0 [] [84, 73, 84, 50]
    [0, 0, 0] [83, 111, 110, 103] _ TIT2 abc
    (by decide) (by decide) (by decide) (by decide) (by decide) (by decide) (by decide)]
  decide

set_option maxRecDepth 1000000 in
theorem storage_title_artist :
    storage_after stack0 e_success (storage_after stack0 e_success sample TIT2 abc) TPE1 xyz
      = stream header0 frames2 trailing0 ++ [100, 100, 100] := by
  rw [storage_sample_title, storage_after_frame stack0 e_success header0
    [⟨[84, 73, 84, 50], [0, 0, 0], [65, 98, 99]⟩] [84, 80, 69, 49]
    [0, 0, 0] [65, 66, 0, 0, 0] _ TPE1 xyz
    (by decide) (by decide) (by decide) (by decide) (by decide) (by decide) (by decide)]
  decide

/-! ## The claims -/

/-- Claim C1: for a stream made of a 10-byte header, well-formed frames and
trailing bytes, and a target id (the C string `mode`) whose first occurrence is
the frame `target` that follows the frames `before` (fewer than six of them),
the scratch stream built by `copy_header_edit` and `compare_tag` is the header,
the frames `before` unchanged, the id of `target`, the big-endian encoding of
the length of the new content plus one, the three flag bytes of `target`, the
new content, and then every byte that followed the old content of `target`
(the frames `after` and the trailing bytes), unchanged and in order. -/
theorem edit_replacement_stream (stack : Nat → Byte) (header : List Byte)
    (before : List Frame) (target : Frame) (after : List Frame) (trailing : List Byte)
    (mode user_content : List Byte)
    (hheader : header.length = 10)
    (hwf : ∀ fr ∈ before ++ target :: after, fr.wf)
    (hk : before.length < 6)
    (htarget : target.id = cstr mode)
    (hfirst : ∀ fr ∈ before, fr.id ≠ cstr mode) :
    scratch stack (stream header (before ++ target :: after) trailing) mode user_content
      = header ++ frames_bytes before
          ++ (target.id ++ be32 (strlen user_content + 1) ++ target.flags ++ cstr user_content)
          ++ frames_bytes after ++ trailing := by
  have hwt : target.wf := hwf target (by simp)
  have hs := scratch_eq stack header before target.id target.flags
    (target.content ++ (frames_bytes after ++ trailing)) target.size mode user_content
    hheader hk (fun fr hfr => ⟨hwf fr (by simp [hfr]), hfirst fr hfr⟩) htarget
    (by rw [← htarget]; exact hwt.1) hwt.2.1 hwt.2.2
  simp only at hs
  have hst : stream header (before ++ target :: after) trailing
      = header ++ frames_bytes before ++ (target.id ++ be32 target.size ++ target.flags
          ++ (target.content ++ (frames_bytes after ++ trailing))) := by
    simp [stream, frames_bytes_append, frames_bytes_cons, Frame.bytes]
  have hd : (target.id ++ be32 target.size ++ target.flags
      ++ (target.content ++ (frames_bytes after ++ trailing))).drop (10 + target.size)
      = frames_bytes after ++ trailing := by
    have : 10 + target.size
        = (target.id ++ be32 target.size ++ target.flags ++ target.content).length := by
      simp [hwt.1, hwt.2.1, be32_length, Frame.size]
      omega
    rw [this, ← List.append_assoc, List.drop_left]
  rw [hst]
  unfold scratch
  rw [hs.2.2, hd]
  simp only [List.append_assoc]

/-- Witness of C1: the request TPE1, "XYZ" on `sample`, whose second frame is
the first with the id TPE1; the rewritten frame has size bytes 0, 0, 0, 4. -/
theorem edit_replacement_stream_witness :
    scratch stack0 (stream header0 (frames0.take 1 ++ ⟨[84, 80, 69, 49], [0, 0, 0],
        [65, 66, 0, 0, 0]⟩ :: frames0.drop 2) trailing0) TPE1 xyz
      = header0 ++ frames_bytes (frames0.take 1)
          ++ ([84, 80, 69, 49] ++ be32 (strlen xyz + 1) ++ [0, 0, 0] ++ cstr xyz)
          ++ frames_bytes (frames0.drop 2) ++ trailing0 :=
  edit_replacement_stream stack0 header0 (frames0.take 1)
    ⟨[84, 80, 69, 49], [0, 0, 0], [65, 66, 0, 0, 0]⟩ (frames0.drop 2) trailing0 TPE1 xyz
    (by decide) (by decide) (by decide) (by decide) (by decide)

set_option maxRecDepth 100000 in
/-- Claim C2, the code at a failing input: the field TITLE of `sample` is edited
to a value of 255 bytes "A", which has no zero byte. The file then holds the
frame TIT2 with the size bytes 0, 0, 1, 0 (256) and the 255 bytes. On the view
path `Big_to_Little_Endian` adds the four size bytes up and finds the size 1,
so that `read_tag` reads no byte and `view_tags` prints the empty string for
TITLE, not the value. -/
theorem round_trip_long_value :
    cstr (List.replicate 255 65) = List.replicate 255 65 ∧
    storage_after stack0 e_success sample TIT2 (List.replicate 255 65)
      = header0 ++ ([84, 73, 84, 50] ++ [0, 0, 1, 0] ++ [0, 0, 0] ++ List.replicate 255 65)
        ++ frames_bytes (frames0.drop 1) ++ trailing0 ∧
    be_value [0, 0, 1, 0] = 256 ∧
    (Big_to_Little_Endian [0, 0, 1, 0] 0).2 = 1 ∧
    shown Field.TITLE (view_tags stack0 e_success
      (some (storage_after stack0 e_success sample TIT2 (List.replicate 255 65)))).2 = [[]] := by
  refine ⟨by decide, storage_title_255, by decide, by decide, ?_⟩
  rw [storage_title_255]
  decide

set_option maxRecDepth 100000 in
/-- Claim C3, the code at a failing input: before the edit `view_tags` prints
"AB" for ARTIST on `sample`; after the field TITLE is edited to a value of 255
bytes "A" it prints no line for ARTIST. The size 256 of the rewritten frame is
read as 1 by `Big_to_Little_Endian`, and the frames that follow are looked for
inside the new content. -/
theorem isolation_long_value :
    shown Field.ARTIST (view_tags stack0 e_success (some sample)).2 = [[65, 66]] ∧
    shown Field.ARTIST (view_tags stack0 e_success
      (some (storage_after stack0 e_success sample TIT2 (List.replicate 255 65)))).2 = [] := by
  refine ⟨by decide, ?_⟩
  rw [storage_title_255]
  decide

/-- Claim C4: when the destination of `do_edit` is positioned at its end (as it
is whenever `compare_tag` calls it), the four bytes that `do_edit` writes after
the frame id are the big-endian bytes of `strlen (user_content) + 1`, whatever
the source holds; for a content of fewer than 2^32 - 1 bytes their big-endian
value is `strlen (user_content) + 1`. -/
theorem edit_size_field (stack : Nat → Byte) (editInfo : EditInfo)
    (h : editInfo.fptr_temp.pos = editInfo.fptr_temp.data.length) :
    (((do_edit stack editInfo).2.fptr_temp.data.drop (editInfo.fptr_temp.pos + 4)).take 4
        = be32 (strlen editInfo.user_content + 1)) ∧
    (strlen editInfo.user_content + 1 < 2 ^ 32 →
      be_value (((do_edit stack editInfo).2.fptr_temp.data.drop
        (editInfo.fptr_temp.pos + 4)).take 4) = strlen editInfo.user_content + 1) := by
  obtain ⟨tag, sfx, h4, hd⟩ := do_edit_temp stack editInfo h
  have key : ((do_edit stack editInfo).2.fptr_temp.data.drop (editInfo.fptr_temp.pos + 4)).take 4
      = be32 (strlen editInfo.user_content + 1) := by
    have e1 : editInfo.fptr_temp.data.length + 4 = (editInfo.fptr_temp.data ++ tag).length := by
      rw [List.length_append, h4]
    rw [hd, h, e1, ← List.append_assoc, List.drop_left,
      ← be32_length (strlen editInfo.user_content + 1), List.take_left]
  refine ⟨key, fun hlt => ?_⟩
  rw [key, be_value_be32]
  exact Nat.mod_eq_of_lt hlt

/-- Witness of C4: `do_edit` on the second frame of `sample` with the new content
"XYZ" writes the size bytes 0, 0, 0, 4. -/
theorem edit_size_field_witness :
    ((do_edit stack0 edit_state0).2.fptr_temp.data.drop (edit_state0.fptr_temp.pos + 4)).take 4
        = be32 (strlen edit_state0.user_content + 1) ∧
    be_value (((do_edit stack0 edit_state0).2.fptr_temp.data.drop
        (edit_state0.fptr_temp.pos + 4)).take 4) = strlen edit_state0.user_content + 1 :=
  ⟨(edit_size_field stack0 edit_state0 (by decide)).1,
    (edit_size_field stack0 edit_state0 (by decide)).2 (by decide)⟩

set_option maxRecDepth 100000 in
/-- Claim C5, the code at a failing input: the request TPE1, "XYZ" on `sample`,
whose TPE1 frame has the 5 content bytes "AB" and three zero bytes. The new
content is 2 bytes shorter than the old one and the scratch stream has 98
bytes, but the file still has its 100 bytes after `do_edit_tags`: the copy back
leaves the last two bytes of the old file, 144 and 100, behind the scratch
stream. -/
theorem shorter_edit_keeps_length :
    strlen xyz = 3 ∧ sample.length = 100 ∧
    (scratch stack0 sample TPE1 xyz).length = 98 ∧
    (do_edit_tags stack0 e_success (some sample) (request TPE1 xyz)).1 = e_success ∧
    (storage_after stack0 e_success sample TPE1 xyz).length = 100 ∧
    storage_after stack0 e_success sample TPE1 xyz
      = scratch stack0 sample TPE1 xyz ++ [144, 100] := by
  have h := storage_after_match stack0 e_success header0 (frames0.take 1) [84, 80, 69, 49]
    [0, 0, 0] ([65, 66, 0, 0, 0] ++ (frames_bytes (frames0.drop 2) ++ trailing0)) 6 TPE1 xyz
    (by decide) (by decide) (by decide) (by decide) (by decide) (by decide) (by decide)
  have hs := (scratch_eq stack0 header0 (frames0.take 1) [84, 80, 69, 49] [0, 0, 0]
    ([65, 66, 0, 0, 0] ++ (frames_bytes (frames0.drop 2) ++ trailing0)) 6 TPE1 xyz
    (by decide) (by decide) (by decide) (by decide) (by decide) (by decide) (by decide)).2.2
  rw [← sample_artist] at h hs
  have hsc : scratch stack0 sample TPE1 xyz = header0 ++ frames_bytes (frames0.take 1)
      ++ [84, 80, 69, 49] ++ be32 (strlen xyz + 1) ++ [0, 0, 0] ++ cstr xyz
      ++ List.drop (10 + 6) ([84, 80, 69, 49] ++ be32 6 ++ [0, 0, 0]
        ++ ([65, 66, 0, 0, 0] ++ (frames_bytes (frames0.drop 2) ++ trailing0))) := hs
  refine ⟨by decide, by decide, ?_, h.1, ?_, ?_⟩
  · rw [hsc]; decide
  · rw [h.2, hsc]; decide
  · rw [h.2, hsc]; decide

/-- Claim C6, the code at a failing input: the scratch stream holds the two
bytes 9, 8 and the original the five bytes 1, 2, 3, 4, 5. After
`copy_data_from_temp_to_original_file` the original holds 9, 8, 3, 4, 5: the
bytes beyond the length of the scratch stream stay, and the original is not
equal to the scratch stream. The function reports `e_success`. -/
theorem copy_back_keeps_tail :
    (copy_data_from_temp_to_original_file
      ⟨[], TPE1, 0, xyz, 0, ⟨[1, 2, 3, 4, 5], 5⟩, ⟨[9, 8], 2⟩⟩).2.fptr_original.data
        = [9, 8, 3, 4, 5] ∧
    (copy_data_from_temp_to_original_file
      ⟨[], TPE1, 0, xyz, 0, ⟨[1, 2, 3, 4, 5], 5⟩, ⟨[9, 8], 2⟩⟩).2.fptr_temp.data = [9, 8] ∧
    (copy_data_from_temp_to_original_file
      ⟨[], TPE1, 0, xyz, 0, ⟨[1, 2, 3, 4, 5], 5⟩, ⟨[9, 8], 2⟩⟩).1 = e_success := by
  decide

/-- Claim C7: for every stream of at least 10 bytes and every edit request, the
first 10 bytes of the file after `do_edit_tags` are its first 10 bytes before,
whatever follows them and whatever status `do_edit_tags` returns. -/
theorem header_preserved (stack : Nat → Byte) (undef : Status) (bytes mode user_content : List Byte)
    (h : 10 ≤ bytes.length) :
    (storage_after stack undef bytes mode user_content).take 10 = bytes.take 10 := by
  have hb : bytes = bytes.take 10 ++ bytes.drop 10 := (List.take_append_drop 10 bytes).symm
  have hh : (bytes.take 10).length = 10 := by simp [h]
  generalize bytes.take 10 = hdr at hb hh
  generalize bytes.drop 10 = rest at hb
  subst hb
  have g := compare_tag_grows stack ⟨[], mode, 0, user_content, 0, ⟨hdr ++ rest, 10⟩, ⟨hdr, 10⟩⟩
    hh.symm
  obtain ⟨g1, _, _, _, sfx, g5⟩ := g
  simp only at g1 g5
  unfold storage_after
  rw [do_edit_tags_some stack undef hdr rest mode user_content hh]
  have ht : (hdr ++ rest).take 10 = hdr := by rw [← hh]; simp
  split
  · simp only
    rw [g1, ht]
  · simp only
    rw [(copy_back_eq _).2, g5, List.append_assoc, ← hh]
    simp

/-- Witness of C7: the request TPE1, "XYZ" on `sample`. -/
theorem header_preserved_witness :
    (storage_after stack0 e_success sample TPE1 xyz).take 10 = sample.take 10 :=
  header_preserved stack0 e_success sample TPE1 xyz (by decide)

set_option maxRecDepth 1000000 in
/-- Claim C8, the code at a failing input: the request TYER, "2026" on `sample1`,
a well-formed stream whose six frames are TIT2, TPE1, TALB, TDRC, TCON, COMM.
`compare_tag` skips the six frames and reaches the end of the function without
a `return` statement: it returns no `e_failure`. With the value found in its
place read as `e_success`, `do_edit_tags` copies the scratch stream back and
returns `e_success`, the status it returns for the same request on `sample`,
where the TYER frame is found and edited. -/
theorem not_found_no_failure :
    (compare_tag stack0 (copy_header_edit stack0
      (open_file (some sample1) (request TYER [50, 48, 50, 54, 0])).2).2).1 = none ∧
    (do_edit_tags stack0 e_success (some sample1) (request TYER [50, 48, 50, 54, 0])).1
      = e_success ∧
    (do_edit_tags stack0 e_success (some sample) (request TYER [50, 48, 50, 54, 0])).1
      = e_success := by
  decide

set_option maxRecDepth 1000000 in
/-- Counterexample to C10: in `zero_size0` the frame TIT2 declares size 0.
`do_edit`, called for the request TIT2, "XYZ", does not report a failure; it
keeps 0 as `old_size` and seeks by 0 - 1 = -1: the source goes one byte back,
and the third flag byte, 7, is copied once more after the new content. -/
theorem zero_size_no_failure :
    be_value ((zero_size0.drop 14).take 4) = 0 ∧
    (do_edit stack0 edit_state1).1 ≠ e_failure ∧
    (do_edit stack0 edit_state1).2.old_size = 0 ∧
    int_sub (do_edit stack0 edit_state1).2.old_size 1 = -1 ∧
    (do_edit stack0 edit_state1).2.fptr_temp.data.take 29
      = header0 ++ [84, 73, 84, 50] ++ [0, 0, 0, 4] ++ [0, 0, 7] ++ [88, 89, 90]
          ++ [7] ++ [84, 80, 69, 49] := by
  decide

/-- Claim C10 as amended: when the frame that matches the target id declares
size 0, `do_edit_tags` returns `e_success`; `do_edit` uses 0 - 1 = -1 as the
length of its seek over the old content, which moves the source one byte
back, so that the scratch stream is the header, the frames before the target,
the id, the new size, the flags, the new content, the third flag byte once
more and every byte that followed the frame header. -/
theorem zero_size_target_edit (stack : Nat → Byte) (undef : Status) (header : List Byte)
    (before : List Frame) (id flags tail : List Byte) (mode user_content : List Byte)
    (hheader : header.length = 10) (hk : before.length < 6)
    (hbefore : ∀ fr ∈ before, fr.wf ∧ fr.id ≠ cstr mode)
    (hid : id = cstr mode) (hlen : id.length = 4) (hflags : flags.length = 3) :
    (do_edit_tags stack undef
      (some (header ++ frames_bytes before ++ (id ++ be32 0 ++ flags ++ tail)))
      (request mode user_content)).1 = e_success ∧
    scratch stack (header ++ frames_bytes before ++ (id ++ be32 0 ++ flags ++ tail))
        mode user_content
      = header ++ frames_bytes before ++ id ++ be32 (strlen user_content + 1) ++ flags
          ++ cstr user_content ++ (flags.drop 2 ++ tail) := by
  have hm : (cstr mode).length = 4 := by rw [← hid]; exact hlen
  have h := storage_after_match stack undef header before id flags tail 0 mode user_content
    hheader hk hbefore hid hm hflags (by decide)
  have hs := (scratch_eq stack header before id flags tail 0 mode user_content
    hheader hk hbefore hid hm hflags (by decide)).2.2
  refine ⟨h.1, ?_⟩
  unfold scratch
  rw [hs, drop_zero_size id flags tail hlen hflags]

/-- Witness of C10 as amended: the request TIT2, "XYZ" on `zero_size0`. -/
theorem zero_size_target_edit_witness :
    (do_edit_tags stack0 e_failure
      (some (header0 ++ frames_bytes [] ++ ([84, 73, 84, 50] ++ be32 0 ++ [0, 0, 7]
        ++ (frames_bytes (frames0.drop 1) ++ trailing0))))
      (request TIT2 xyz)).1 = e_success ∧
    scratch stack0 (header0 ++ frames_bytes [] ++ ([84, 73, 84, 50] ++ be32 0 ++ [0, 0, 7]
        ++ (frames_bytes (frames0.drop 1) ++ trailing0))) TIT2 xyz
      = header0 ++ frames_bytes [] ++ [84, 73, 84, 50] ++ be32 (strlen xyz + 1) ++ [0, 0, 7]
          ++ cstr xyz ++ (List.drop 2 [0, 0, 7] ++ (frames_bytes (frames0.drop 1) ++ trailing0)) :=
  zero_size_target_edit stack0 e_failure header0 [] [84, 73, 84, 50] [0, 0, 7]
    (frames_bytes (frames0.drop 1) ++ trailing0) TIT2 xyz
    (by decide) (by decide) (by decide) (by decide) (by decide) (by decide)

/-- Claim C12: for every stream whose first three bytes are not "ID3" (streams of
fewer than three bytes included), `version_read` returns `e_failure` and prints
no VERSION line, `view_tags` returns `e_failure` and prints no field, and the
bytes of the file are what they were: neither function writes to it. -/
theorem magic_mismatch_fails (stack : Nat → Byte) (undef : Status) (bytes : List Byte)
    (VERInfo : VersionInfo) (viInfo : ViewInfo)
    (h : bytes.take 3 ≠ [73, 68, 51]) :
    (version_read stack (some bytes) VERInfo).1 = e_failure ∧
    (version_read stack (some bytes) VERInfo).2.1 = none ∧
    (version_read stack (some bytes) VERInfo).2.2.fptr_src.data = bytes ∧
    view_tags stack undef (some bytes) = (some e_failure, []) ∧
    (version_reader (open_files (some bytes) viInfo).2).1 = e_failure ∧
    (version_reader (open_files (some bytes) viInfo).2).2.fptr_src_song.data = bytes := by
  have hm := magic_mismatch bytes h
  have hv : (version_reader (open_files (some bytes) viInfo).2).1 = e_failure ∧
      (version_reader (open_files (some bytes) viInfo).2).2.fptr_src_song.data = bytes := by
    simp only [version_reader, open_files, hm]
    exact ⟨rfl, rfl⟩
  have hv0 : (version_reader (open_files (some bytes) ⟨[], 0, [], [], ⟨[], 0⟩⟩).2).1
      = e_failure := by
    simp only [version_reader, open_files, hm]
    rfl
  refine ⟨?_, ?_, ?_, ?_, hv.1, hv.2⟩
  · simp only [version_read, open_files_for_version, hm]
    rfl
  · simp only [version_read, open_files_for_version, hm]
    rfl
  · simp only [version_read, open_files_for_version, hm]
    rfl
  · unfold view_tags
    simp only [open_files] at hv0 ⊢
    rw [if_neg (by decide), if_pos hv0]

/-- Witness of C12: a stream that starts with "xyz". -/
theorem magic_mismatch_fails_witness :
    (version_read stack0 (some ([120, 121, 122] ++ sample.drop 3)) ⟨[], ⟨[], 0⟩⟩).1 = e_failure ∧
    (version_read stack0 (some ([120, 121, 122] ++ sample.drop 3)) ⟨[], ⟨[], 0⟩⟩).2.1 = none ∧
    (version_read stack0 (some ([120, 121, 122] ++ sample.drop 3)) ⟨[], ⟨[], 0⟩⟩).2.2.fptr_src.data
      = [120, 121, 122] ++ sample.drop 3 ∧
    view_tags stack0 e_success (some ([120, 121, 122] ++ sample.drop 3))
      = (some e_failure, []) ∧
    (version_reader (open_files (some ([120, 121, 122] ++ sample.drop 3))
      ⟨[], 0, [], [], ⟨[], 0⟩⟩).2).1 = e_failure ∧
    (version_reader (open_files (some ([120, 121, 122] ++ sample.drop 3))
      ⟨[], 0, [], [], ⟨[], 0⟩⟩).2).2.fptr_src_song.data = [120, 121, 122] ++ sample.drop 3 :=
  magic_mismatch_fails stack0 e_success ([120, 121, 122] ++ sample.drop 3) ⟨[], ⟨[], 0⟩⟩
    ⟨[], 0, [], [], ⟨[], 0⟩⟩ (by decide)

set_option maxRecDepth 1000000 in
/-- Claim C13, the code at a failing input: `bad_magic` is `sample` with the
first three bytes "xyz". `copy_header_edit` does not look at them: for the
request TPE1, "XYZ" the status of `do_edit_tags` is not `e_failure`, even when
the value found in the place of a missing result is, and the file is not what
it was: its TPE1 frame is rewritten. -/
theorem bad_magic_is_edited :
    bad_magic.take 3 ≠ [73, 68, 51] ∧
    (do_edit_tags stack0 e_failure (some bad_magic) (request TPE1 xyz)).1 ≠ e_failure ∧
    storage_after stack0 e_failure bad_magic TPE1 xyz ≠ bad_magic := by
  refine ⟨by decide, by decide, ?_⟩
  rw [storage_after_of_success stack0 e_failure bad_magic TPE1 xyz (by decide) (by decide)]
  decide

/-- Claim C14: when the source is positioned 4 bytes past the start of a complete
well-formed frame `fr` (its id has just been read) and the destination is at
its end and at the offset of the start of the frame, as it is when
`compare_tag` calls `skip_tag`, then `skip_tag` returns `e_success`, the
destination has grown by exactly the 10 + declaredSize bytes of the frame, the
source has not changed and is positioned at the first byte after the frame. -/
theorem skip_reproduces_frame (stack : Nat → Byte) (editInfo : EditInfo) (fr : Frame)
    (rest : List Byte) (q : Nat) (hwf : fr.wf)
    (hpos : editInfo.fptr_original.pos = q + 4)
    (hdata : editInfo.fptr_original.data.drop q = fr.bytes ++ rest)
    (htemp : editInfo.fptr_temp.pos = editInfo.fptr_temp.data.length)
    (hq : editInfo.fptr_temp.data.length = q) :
    (skip_tag stack editInfo).1 = e_success ∧
    (skip_tag stack editInfo).2.fptr_temp.data = editInfo.fptr_temp.data ++ fr.bytes ∧
    fr.bytes.length = 10 + fr.size ∧
    fr.bytes = fr.id ++ be32 fr.size ++ fr.flags ++ fr.content ∧
    (skip_tag stack editInfo).2.fptr_original.data = editInfo.fptr_original.data ∧
    (skip_tag stack editInfo).2.fptr_original.pos = q + (10 + fr.size) ∧
    (skip_tag stack editInfo).2.fptr_original.data.drop
      (skip_tag stack editInfo).2.fptr_original.pos = rest := by
  have hs := skip_tag_frame stack editInfo fr rest q hwf hpos hdata htemp hq
  have hl := fr.bytes_length hwf
  rw [hs]
  refine ⟨rfl, rfl, hl, rfl, rfl, by simp only; rw [hl], ?_⟩
  simp only
  exact drop_at _ q _ fr.bytes rest hdata rfl

/-- Witness of C14: the function `skip_tag` on the second frame of `sample`, after
the header and the first frame have been copied. -/
theorem skip_reproduces_frame_witness :
    (skip_tag stack0 edit_state0).1 = e_success ∧
    (skip_tag stack0 edit_state0).2.fptr_temp.data
      = edit_state0.fptr_temp.data ++ Frame.bytes ⟨[84, 80, 69, 49], [0, 0, 0], [65, 66, 0, 0, 0]⟩ ∧
    (Frame.bytes ⟨[84, 80, 69, 49], [0, 0, 0], [65, 66, 0, 0, 0]⟩).length
      = 10 + Frame.size ⟨[84, 80, 69, 49], [0, 0, 0], [65, 66, 0, 0, 0]⟩ ∧
    Frame.bytes ⟨[84, 80, 69, 49], [0, 0, 0], [65, 66, 0, 0, 0]⟩
      = [84, 80, 69, 49] ++ be32 (Frame.size ⟨[84, 80, 69, 49], [0, 0, 0], [65, 66, 0, 0, 0]⟩)
          ++ [0, 0, 0] ++ [65, 66, 0, 0, 0] ∧
    (skip_tag stack0 edit_state0).2.fptr_original.data = edit_state0.fptr_original.data ∧
    (skip_tag stack0 edit_state0).2.fptr_original.pos
      = 25 + (10 + Frame.size ⟨[84, 80, 69, 49], [0, 0, 0], [65, 66, 0, 0, 0]⟩) ∧
    (skip_tag stack0 edit_state0).2.fptr_original.data.drop
      (skip_tag stack0 edit_state0).2.fptr_original.pos = sample.drop 41 :=
  skip_reproduces_frame stack0 edit_state0 ⟨[84, 80, 69, 49], [0, 0, 0], [65, 66, 0, 0, 0]⟩
    (sample.drop 41) 25 (by decide) (by decide) (by decide) (by decide) (by decide)

/-- Claim C15: the endian codec is an involution. Applying
`convert_big_to_little_endian_for_edit` twice gives back the bytes it was
given; for a 32-bit `int` value `x`, whose bytes in wire order are the
conversion of its bytes in memory, decoding those bytes gives `x`; and for four
bytes `b`, encoding the value decoded from `b` gives `b`. -/
theorem endian_involution :
    (∀ p : List Byte,
      convert_big_to_little_endian_for_edit (convert_big_to_little_endian_for_edit p) = p) ∧
    (∀ x : Int, -2 ^ 31 ≤ x → x < 2 ^ 31 →
      int_of_mem (convert_big_to_little_endian_for_edit
        (convert_big_to_little_endian_for_edit (mem_of_int x))) = x) ∧
    (∀ b : List Byte, b.length = 4 →
      convert_big_to_little_endian_for_edit
        (mem_of_int (int_of_mem (convert_big_to_little_endian_for_edit b))) = b) := by
  refine ⟨convert_twice, fun x h1 h2 => ?_, fun b hb => ?_⟩
  · rw [convert_twice, int_of_mem_of_int x h1 h2]
  · rw [mem_of_int_of_mem _ (convert_length b hb), convert_twice]

/-- Witness of C15: the value 256, whose wire bytes are 0, 0, 1, 0. -/
theorem endian_involution_witness :
    int_of_mem (convert_big_to_little_endian_for_edit
      (convert_big_to_little_endian_for_edit (mem_of_int 256))) = 256 ∧
    convert_big_to_little_endian_for_edit
      (mem_of_int (int_of_mem (convert_big_to_little_endian_for_edit [0, 0, 1, 0])))
        = [0, 0, 1, 0] :=
  ⟨endian_involution.2.1 256 (by decide) (by decide), endian_involution.2.2 [0, 0, 1, 0] rfl⟩

/-- Claim C16: on a little-endian host the size that the edit path decodes from
the four wire bytes b0 b1 b2 b3, the `int` whose bytes in memory are the
conversion of the bytes as read, is the big-endian value
b0*2^24 + b1*2^16 + b2*2^8 + b3 read as a 32-bit two's complement number, so it
is congruent to that value modulo 2^32. `do_edit` keeps it as `old_size`; and
when it is a size from 1 up to 2^31 - 1, `skip_tag` copies the 11 bytes of the
frame header and that size minus one content bytes. -/
theorem edit_size_decode (stack : Nat → Byte) (editInfo : EditInfo) (id rest : List Byte)
    (b0 b1 b2 b3 : Byte) (q : Nat) (hid : id.length = 4)
    (hpos : editInfo.fptr_original.pos = q + 4)
    (hdata : editInfo.fptr_original.data.drop q = id ++ [b0, b1, b2, b3] ++ rest)
    (htemp : editInfo.fptr_temp.pos = editInfo.fptr_temp.data.length) :
    be_value [b0, b1, b2, b3]
      = b0.val * 2 ^ 24 + b1.val * 2 ^ 16 + b2.val * 2 ^ 8 + b3.val ∧
    int_of_mem (convert_big_to_little_endian_for_edit [b0, b1, b2, b3])
      = (if be_value [b0, b1, b2, b3] < 2 ^ 31 then (be_value [b0, b1, b2, b3] : Int)
          else (be_value [b0, b1, b2, b3] : Int) - 2 ^ 32) ∧
    int_of_mem (convert_big_to_little_endian_for_edit [b0, b1, b2, b3]) % 2 ^ 32
      = (be_value [b0, b1, b2, b3] : Int) ∧
    (do_edit stack editInfo).2.old_size
      = int_of_mem (convert_big_to_little_endian_for_edit [b0, b1, b2, b3]) ∧
    (1 ≤ be_value [b0, b1, b2, b3] → be_value [b0, b1, b2, b3] < 2 ^ 31 →
      (skip_tag stack editInfo).2.fptr_temp.data.length
        = editInfo.fptr_temp.data.length + 11 + (be_value [b0, b1, b2, b3] - 1)) := by
  refine ⟨?_, decode_wire b0 b1 b2 b3, ?_,
    do_edit_old_size stack editInfo id rest b0 b1 b2 b3 q hid hpos hdata, fun h1 h2 => ?_⟩
  · simp only [be_value, List.getD_cons_zero, List.getD_cons_succ]
    omega
  · rw [decode_wire]
    have hlt := be_value_lt b0 b1 b2 b3
    split <;> omega
  · rw [skip_tag_size stack editInfo id rest b0 b1 b2 b3 q hid hpos hdata htemp, decode_wire,
      if_pos h2]
    obtain ⟨m, hm⟩ : ∃ m, be_value [b0, b1, b2, b3] = m + 1 :=
      ⟨be_value [b0, b1, b2, b3] - 1, by omega⟩
    rw [hm, size_t_pred m (by omega)]
    rfl

/-- Witness of C16: `do_edit` and `skip_tag` on the second frame of `sample`, whose
size bytes are 0, 0, 0, 6. -/
theorem edit_size_decode_witness :
    be_value [0, 0, 0, 6] = (0 : Byte).val * 2 ^ 24 + (0 : Byte).val * 2 ^ 16
      + (0 : Byte).val * 2 ^ 8 + (6 : Byte).val ∧
    int_of_mem (convert_big_to_little_endian_for_edit [0, 0, 0, 6])
      = (if be_value [0, 0, 0, 6] < 2 ^ 31 then (be_value [0, 0, 0, 6] : Int)
          else (be_value [0, 0, 0, 6] : Int) - 2 ^ 32) ∧
    int_of_mem (convert_big_to_little_endian_for_edit [0, 0, 0, 6]) % 2 ^ 32
      = (be_value [0, 0, 0, 6] : Int) ∧
    (do_edit stack0 edit_state0).2.old_size
      = int_of_mem (convert_big_to_little_endian_for_edit [0, 0, 0, 6]) ∧
    (skip_tag stack0 edit_state0).2.fptr_temp.data.length
      = edit_state0.fptr_temp.data.length + 11 + (be_value [0, 0, 0, 6] - 1) :=
  ⟨(edit_size_decode stack0 edit_state0 [84, 80, 69, 49] (sample.drop 33) 0 0 0 6 25
      (by decide) (by decide) (by decide) (by decide)).1,
   (edit_size_decode stack0 edit_state0 [84, 80, 69, 49] (sample.drop 33) 0 0 0 6 25
      (by decide) (by decide) (by decide) (by decide)).2.1,
   (edit_size_decode stack0 edit_state0 [84, 80, 69, 49] (sample.drop 33) 0 0 0 6 25
      (by decide) (by decide) (by decide) (by decide)).2.2.1,
   (edit_size_decode stack0 edit_state0 [84, 80, 69, 49] (sample.drop 33) 0 0 0 6 25
      (by decide) (by decide) (by decide) (by decide)).2.2.2.1,
   (edit_size_decode stack0 edit_state0 [84, 80, 69, 49] (sample.drop 33) 0 0 0 6 25
      (by decide) (by decide) (by decide) (by decide)).2.2.2.2 (by decide) (by decide)⟩

/-- Claim C17, the code at a failing input: the size field 0, 0, 1, 0. The edit
path decodes it as 256, its big-endian value; `Big_to_Little_Endian` of `view.c`
reverses the bytes and then adds them up, and sets `tag_size` to 1. -/
theorem view_size_is_byte_sum :
    be_value [0, 0, 1, 0] = 256 ∧
    int_of_mem (convert_big_to_little_endian_for_edit [0, 0, 1, 0]) = 256 ∧
    (Big_to_Little_Endian [0, 0, 1, 0] 0).2 = 1 ∧
    (Big_to_Little_Endian [0, 0, 1, 0] 0).1 = [0, 1, 0, 0] := by
  decide

set_option maxRecDepth 1000000 in
/-- Claim C18, the code at a failing input: `long_title` is a well-formed stream
whose first frame, TITLE, declares size 256; the 255 bytes that start 11 bytes
after its first byte are "A" 255 times, and none of them is zero. `view_tags`
reports the empty text for it: the size is read as 0 + 0 + 1 + 0 = 1, and
`read_tag` reads no byte. -/
theorem long_frame_text_is_lost :
    (∀ fr ∈ (⟨[84, 73, 84, 50], [0, 0, 0], List.replicate 255 65⟩ :: frames0.drop 1 : List Frame),
      fr.wf) ∧
    (long_title.drop 10).take 4 = [84, 73, 84, 50] ∧
    be_value ((long_title.drop 14).take 4) = 256 ∧
    cstr ((long_title.drop (10 + 11)).take (256 - 1)) = List.replicate 255 65 ∧
    shown Field.TITLE (view_tags stack0 e_success (some long_title)).2 = [[]] := by
  decide

set_option maxRecDepth 1000000 in
/-- Claim C19, the code at a failing input: two well-formed streams with the
same header and the same six frames `six0`, followed by `after_a` and by
`after_b`. The first frame declares size 256, which the view path reads as 1;
it then takes the start of the content for a second frame of size
127 + 127 + 46 + 0 = 300, whose end is the end of the sixth frame, and reads
its four last frames from the bytes that follow the six frames. `view_tags`
prints COMMENT "Hi" for the first stream and COMMENT "Yo" for the second. -/
theorem view_reads_past_six_frames :
    (∀ fr ∈ six0, fr.wf) ∧ six0.length = 6 ∧
    (view_tags stack0 e_success (some (stream header0 six0 after_a))).2
      = [(Field.TITLE, []), (Field.COMMENT, [72, 105])] ∧
    (view_tags stack0 e_success (some (stream header0 six0 after_b))).2
      = [(Field.TITLE, []), (Field.COMMENT, [89, 111])] := by
  decide

/-- Claim C20: `read_and_validate_for_edit`, called with the five command line
strings of an edit, sets `mode` to TIT2, TPE1, TYER, TALB, TCON, COMM for the
flags -t, -a, -y, -A, -g, -c respectively, whatever the other strings are; for
every other flag string it returns `e_failure`, `mode` is left as the block
that `malloc` returned, and no content and no file name is stored. -/
theorem flag_to_frame_id :
    (∀ (a0 a1 a3 a4 : List Byte) (editInfo : EditInfo) (names : EditNames),
      (read_and_validate_for_edit [a0, a1, flag_t, a3, a4] editInfo names).2.1.mode = TIT2 ∧
      (read_and_validate_for_edit [a0, a1, flag_a, a3, a4] editInfo names).2.1.mode = TPE1 ∧
      (read_and_validate_for_edit [a0, a1, flag_y, a3, a4] editInfo names).2.1.mode = TYER ∧
      (read_and_validate_for_edit [a0, a1, flag_A, a3, a4] editInfo names).2.1.mode = TALB ∧
      (read_and_validate_for_edit [a0, a1, flag_g, a3, a4] editInfo names).2.1.mode = TCON ∧
      (read_and_validate_for_edit [a0, a1, flag_c, a3, a4] editInfo names).2.1.mode = COMM) ∧
    (∀ (a0 a1 flag a3 a4 : List Byte) (editInfo : EditInfo) (names : EditNames),
      cstr flag ∉ [cstr flag_t, cstr flag_a, cstr flag_y, cstr flag_A, cstr flag_g,
        cstr flag_c] →
      read_and_validate_for_edit [a0, a1, flag, a3, a4] editInfo names
        = (e_failure, { editInfo with mode := malloc 5 }, names)) := by
  constructor
  · intro a0 a1 a3 a4 editInfo names
    have key : ∀ (flag tag mode : List Byte), flag_branch flag = some (tag, mode) →
        (read_and_validate_for_edit [a0, a1, flag, a3, a4] editInfo names).2.1.mode = mode := by
      intro flag tag mode hb
      simp only [read_and_validate_for_edit, List.getD_cons_zero, List.getD_cons_succ, hb]
      split
      · split <;> rfl
      · rfl
    exact ⟨key flag_t TITLE TIT2 rfl, key flag_a ARTIST TPE1 rfl, key flag_y YEAR TYER rfl,
      key flag_A ALBUM TALB rfl, key flag_g GENRE TCON rfl, key flag_c COMMENT COMM rfl⟩
  · intro a0 a1 flag a3 a4 editInfo names h
    simp only [read_and_validate_for_edit, List.getD_cons_zero, List.getD_cons_succ,
      flag_branch_none flag h]

/-- Witness of C20: the flag "-x" with the content "2026" and the file name
"s.mp3". -/
theorem flag_to_frame_id_witness :
    read_and_validate_for_edit [[], [45, 101, 0], [45, 120, 0], [50, 48, 50, 54, 0],
        [115, 46, 109, 112, 51, 0]] (request [] []) ⟨[], []⟩
      = (e_failure, { request [] [] with mode := malloc 5 }, ⟨[], []⟩) :=
  flag_to_frame_id.2 [] [45, 101, 0] [45, 120, 0] [50, 48, 50, 54, 0]
    [115, 46, 109, 112, 51, 0] (request [] []) ⟨[], []⟩ (by decide)

/-- Claim C21: the catalog is the same table on both paths. For each of the six
fields, the branch of `read_and_validate_for_edit` that stores the name of the
field in `user_tag` stores in `mode` the frame id for which
`read_and_print_for_tag` prints the label of that field, which is the name
followed by a blank. Every request that `read_and_validate_for_edit` accepts
targets an id that the view path labels with the name in `user_tag`; and every
id for which the view path prints a label is the id that one of the six flags
targets, under that name. -/
theorem catalog_same_on_both_paths :
    (flag_branch flag_t = some (TITLE, TIT2) ∧ label TIT2 = some Field.TITLE ∧
      cstr (label_text Field.TITLE) = cstr TITLE ++ [32]) ∧
    (flag_branch flag_a = some (ARTIST, TPE1) ∧ label TPE1 = some Field.ARTIST ∧
      cstr (label_text Field.ARTIST) = cstr ARTIST ++ [32]) ∧
    (flag_branch flag_A = some (ALBUM, TALB) ∧ label TALB = some Field.ALBUM ∧
      cstr (label_text Field.ALBUM) = cstr ALBUM ++ [32]) ∧
    (flag_branch flag_y = some (YEAR, TYER) ∧ label TYER = some Field.YEAR ∧
      cstr (label_text Field.YEAR) = cstr YEAR ++ [32]) ∧
    (flag_branch flag_g = some (GENRE, TCON) ∧ label TCON = some Field.GENRE ∧
      cstr (label_text Field.GENRE) = cstr GENRE ++ [32]) ∧
    (flag_branch flag_c = some (COMMENT, COMM) ∧ label COMM = some Field.COMMENT ∧
      cstr (label_text Field.COMMENT) = cstr COMMENT ++ [32]) ∧
    (∀ (a0 a1 flag a3 a4 : List Byte) (editInfo : EditInfo) (names : EditNames),
      (read_and_validate_for_edit [a0, a1, flag, a3, a4] editInfo names).1 = e_success →
      ∃ f, label (read_and_validate_for_edit [a0, a1, flag, a3, a4] editInfo names).2.1.mode
          = some f ∧
        cstr (label_text f)
          = cstr (read_and_validate_for_edit [a0, a1, flag, a3, a4] editInfo names).2.2.user_tag
              ++ [32]) ∧
    (∀ (TAG : List Byte) (f : Field), label TAG = some f →
      ∃ flag tag mode, flag_branch flag = some (tag, mode) ∧ cstr TAG = cstr mode ∧
        cstr (label_text f) = cstr tag ++ [32] ∧
        ∀ (a0 a1 a3 a4 : List Byte) (editInfo : EditInfo) (names : EditNames),
          (read_and_validate_for_edit [a0, a1, flag, a3, a4] editInfo names).2.1.mode = mode) := by
  refine ⟨by decide, by decide, by decide, by decide, by decide, by decide, ?_, ?_⟩
  · intro a0 a1 flag a3 a4 editInfo names h
    have hb := flag_branch_some flag _ (validate_edit_some a0 a1 flag a3 a4 editInfo names h)
    generalize (read_and_validate_for_edit [a0, a1, flag, a3, a4] editInfo names).2.2.user_tag
      = tag at hb
    generalize (read_and_validate_for_edit [a0, a1, flag, a3, a4] editInfo names).2.1.mode
      = mode at hb
    simp only [List.mem_cons, Prod.mk.injEq, List.mem_singleton, List.not_mem_nil, or_false] at hb
    rcases hb with ⟨rfl, rfl⟩ | ⟨rfl, rfl⟩ | ⟨rfl, rfl⟩ | ⟨rfl, rfl⟩ | ⟨rfl, rfl⟩ | ⟨rfl, rfl⟩
    · exact ⟨Field.TITLE, by decide, by decide⟩
    · exact ⟨Field.ARTIST, by decide, by decide⟩
    · exact ⟨Field.YEAR, by decide, by decide⟩
    · exact ⟨Field.ALBUM, by decide, by decide⟩
    · exact ⟨Field.GENRE, by decide, by decide⟩
    · exact ⟨Field.COMMENT, by decide, by decide⟩
  · intro TAG f h
    have hl := label_some TAG f h
    simp only [List.mem_cons, Prod.mk.injEq, List.mem_singleton, List.not_mem_nil, or_false] at hl
    rcases hl with ⟨rfl, h2⟩ | ⟨rfl, h2⟩ | ⟨rfl, h2⟩ | ⟨rfl, h2⟩ | ⟨rfl, h2⟩ | ⟨rfl, h2⟩
    · exact ⟨flag_t, TITLE, TIT2, rfl, h2, by decide,
        fun a0 a1 a3 a4 e n => validate_edit_flag a0 a1 flag_t a3 a4 TITLE TIT2 e n rfl⟩
    · exact ⟨flag_a, ARTIST, TPE1, rfl, h2, by decide,
        fun a0 a1 a3 a4 e n => validate_edit_flag a0 a1 flag_a a3 a4 ARTIST TPE1 e n rfl⟩
    · exact ⟨flag_A, ALBUM, TALB, rfl, h2, by decide,
        fun a0 a1 a3 a4 e n => validate_edit_flag a0 a1 flag_A a3 a4 ALBUM TALB e n rfl⟩
    · exact ⟨flag_y, YEAR, TYER, rfl, h2, by decide,
        fun a0 a1 a3 a4 e n => validate_edit_flag a0 a1 flag_y a3 a4 YEAR TYER e n rfl⟩
    · exact ⟨flag_g, GENRE, TCON, rfl, h2, by decide,
        fun a0 a1 a3 a4 e n => validate_edit_flag a0 a1 flag_g a3 a4 GENRE TCON e n rfl⟩
    · exact ⟨flag_c, COMMENT, COMM, rfl, h2, by decide,
        fun a0 a1 a3 a4 e n => validate_edit_flag a0 a1 flag_c a3 a4 COMMENT COMM e n rfl⟩

/-- Witness of C21: the command line -e -t "XYZ" song.mp3. -/
theorem catalog_same_on_both_paths_witness :
    ∃ f, label (read_and_validate_for_edit [[], [45, 101, 0], flag_t, xyz, song_mp3]
          (request [] []) ⟨[], []⟩).2.1.mode = some f ∧
      cstr (label_text f)
        = cstr (read_and_validate_for_edit [[], [45, 101, 0], flag_t, xyz, song_mp3]
            (request [] []) ⟨[], []⟩).2.2.user_tag ++ [32] :=
  catalog_same_on_both_paths.2.2.2.2.2.2.1 [] [45, 101, 0] flag_t xyz song_mp3
    (request [] []) ⟨[], []⟩ (by decide)

/-- Counterexample to C22: the streams `version_3_7` and `version_3_9` start with
"ID3", have the byte 3 at offset 3 and the bytes 7 and 9 at offset 4. For both
`version_read` reports the string "ID3" and the number 3, which it prints as
"ID3v2.3": the byte at offset 4 is not part of the report. -/
theorem version_minor_not_reported :
    version_3_7.take 3 = [73, 68, 51] ∧ 5 ≤ version_3_7.length ∧
    version_3_7.getD 3 0 = 3 ∧ version_3_7.getD 4 0 = 7 ∧ version_3_9.getD 4 0 = 9 ∧
    (version_read stack0 (some version_3_7) ⟨[], ⟨[], 0⟩⟩).1 = e_success ∧
    (version_read stack0 (some version_3_7) ⟨[], ⟨[], 0⟩⟩).2.1 = some ([73, 68, 51], 3) ∧
    (version_read stack0 (some version_3_9) ⟨[], ⟨[], 0⟩⟩).2.1 = some ([73, 68, 51], 3) := by
  decide

/-- Claim C22 as amended: for every stream that starts with "ID3" and has at
least 5 bytes, `version_read` returns `e_success` and reports the string "ID3"
and one number, the byte at offset 3 converted from `char` to `int`, which is
the byte itself when it is below 128. The byte at offset 4 is not read:
replacing it leaves the report as it is. -/
theorem version_read_major (stack : Nat → Byte) (bytes : List Byte) (VERInfo : VersionInfo)
    (h3 : bytes.take 3 = [73, 68, 51]) (h5 : 5 ≤ bytes.length) :
    (version_read stack (some bytes) VERInfo).1 = e_success ∧
    (version_read stack (some bytes) VERInfo).2.1
      = some ([73, 68, 51], int_of_char (bytes.getD 3 0)) ∧
    ((bytes.getD 3 0).val < 128 →
      (version_read stack (some bytes) VERInfo).2.1
        = some ([73, 68, 51], ((bytes.getD 3 0).val : Int))) ∧
    (∀ b : Byte, (version_read stack (some (bytes.set 4 b)) VERInfo).2.1
      = (version_read stack (some bytes) VERInfo).2.1) := by
  match bytes, h3, h5 with
  | b0 :: b1 :: b2 :: b3 :: b4 :: rest, h3, _ =>
    simp only [List.take_succ_cons, List.take_zero, List.cons.injEq, and_true] at h3
    obtain ⟨rfl, rfl, rfl⟩ := h3
    refine ⟨rfl, rfl, fun hlt => ?_, fun b => rfl⟩
    show some (([73, 68, 51] : List Byte), int_of_char b3) = _
    simp only [List.getD_cons_succ, List.getD_cons_zero] at hlt ⊢
    simp only [int_of_char, if_pos hlt]

/-- Witness of C22 as amended: the stream `version_3_7`. -/
theorem version_read_major_witness :
    (version_read stack0 (some version_3_7) ⟨[], ⟨[], 0⟩⟩).1 = e_success ∧
    (version_read stack0 (some version_3_7) ⟨[], ⟨[], 0⟩⟩).2.1
      = some ([73, 68, 51], int_of_char (version_3_7.getD 3 0)) ∧
    ((version_3_7.getD 3 0).val < 128 →
      (version_read stack0 (some version_3_7) ⟨[], ⟨[], 0⟩⟩).2.1
        = some ([73, 68, 51], ((version_3_7.getD 3 0).val : Int))) ∧
    (∀ b : Byte, (version_read stack0 (some (version_3_7.set 4 b)) ⟨[], ⟨[], 0⟩⟩).2.1
      = (version_read stack0 (some version_3_7) ⟨[], ⟨[], 0⟩⟩).2.1) :=
  version_read_major stack0 version_3_7 ⟨[], ⟨[], 0⟩⟩ (by decide) (by decide)

/-- Claim C23: when the source is positioned 4 bytes past the start of a frame
header whose size bytes encode `n`, with 1 ≤ n < 2^31, and the destination is
at the offset of the start of the frame, `skip_tag` returns `e_failure` if and
only if fewer than 7 + (n - 1) bytes follow the id in the source, and
`e_success` if and only if at least that many bytes follow it. -/
theorem skip_fails_iff_truncated (stack : Nat → Byte) (editInfo : EditInfo) (id rest : List Byte)
    (n q : Nat) (hid : id.length = 4) (h1 : 1 ≤ n) (hn : n < 2 ^ 31)
    (hpos : editInfo.fptr_original.pos = q + 4)
    (hdata : editInfo.fptr_original.data.drop q = id ++ be32 n ++ rest)
    (hq : editInfo.fptr_temp.pos = q) :
    ((skip_tag stack editInfo).1 = e_failure ↔
      editInfo.fptr_original.data.length - editInfo.fptr_original.pos < 7 + (n - 1)) ∧
    ((skip_tag stack editInfo).1 = e_success ↔
      7 + (n - 1) ≤ editInfo.fptr_original.data.length - editInfo.fptr_original.pos) := by
  obtain ⟨hs, hl⟩ := skip_tag_status stack editInfo id rest n q hid h1 hn hpos hdata hq
  rw [hs, hl, hpos]
  by_cases hr : rest.length < 3 + (n - 1)
  · rw [if_pos hr]
    exact ⟨⟨fun _ => by omega, fun _ => rfl⟩, ⟨fun h => Status.noConfusion h, fun h => by omega⟩⟩
  · rw [if_neg hr]
    exact ⟨⟨fun h => Status.noConfusion h, fun h => by omega⟩, ⟨fun _ => by omega, fun _ => rfl⟩⟩

/-- Witness of C23: the sixth frame of `truncated_skip0`, which declares size 10
and has 2 content bytes, and the second frame of `sample`, which is complete. -/
theorem skip_fails_iff_truncated_witness :
    (skip_tag stack0 skip_state0).1 = e_failure ∧
    7 + (6 - 1) ≤ edit_state0.fptr_original.data.length - edit_state0.fptr_original.pos :=
  ⟨(skip_fails_iff_truncated stack0 skip_state0 [67, 79, 77, 77] [0, 0, 0, 72, 105] 10 80
      (by decide) (by decide) (by decide) (by decide) (by decide) (by decide)).1.2 (by decide),
   (skip_fails_iff_truncated stack0 edit_state0 [84, 80, 69, 49]
      ([0, 0, 0] ++ [65, 66, 0, 0, 0] ++ sample.drop 41) 6 25
      (by decide) (by decide) (by decide) (by decide) (by decide) (by decide)).2.1 (by decide)⟩

/-- Claim C24: after a successful `version_reader` on a file that has just been
opened the read position of the view path is 10; after a successful
`copy_header_edit` on a file that has just been opened the source and the
scratch stream are both at offset 10, and the scratch stream holds the first
10 bytes. When both succeed on the same bytes, the read of 4 bytes that comes
next, the frame id in `TAG_reader` and in `compare_tag`, gives the same result
on both paths. -/
theorem header_consumed_on_both_paths (stack : Nat → Byte) (bytes : List Byte)
    (viInfo : ViewInfo) (editInfo : EditInfo) :
    ((version_reader (open_files (some bytes) viInfo).2).1 = e_success →
      ftell (version_reader (open_files (some bytes) viInfo).2).2.fptr_src_song = 10 ∧
      (version_reader (open_files (some bytes) viInfo).2).2.fptr_src_song.data = bytes) ∧
    ((copy_header_edit stack (open_file (some bytes) editInfo).2).1 = e_success →
      ftell (copy_header_edit stack (open_file (some bytes) editInfo).2).2.fptr_original = 10 ∧
      ftell (copy_header_edit stack (open_file (some bytes) editInfo).2).2.fptr_temp = 10 ∧
      (copy_header_edit stack (open_file (some bytes) editInfo).2).2.fptr_original.data = bytes ∧
      (copy_header_edit stack (open_file (some bytes) editInfo).2).2.fptr_temp.data
        = bytes.take 10) ∧
    ((version_reader (open_files (some bytes) viInfo).2).1 = e_success →
      (copy_header_edit stack (open_file (some bytes) editInfo).2).1 = e_success →
      ∀ TAG : List Byte,
        fread TAG 4 (version_reader (open_files (some bytes) viInfo).2).2.fptr_src_song
          = fread TAG 4
              (copy_header_edit stack (open_file (some bytes) editInfo).2).2.fptr_original) := by
  refine ⟨fun hv => ?_, fun he => ?_, fun hv he TAG => ?_⟩
  · rw [version_reader_pos bytes viInfo hv]
    exact ⟨rfl, rfl⟩
  · obtain ⟨h1, h2⟩ := copy_header_edit_pos stack bytes editInfo he
    rw [h1, h2]
    exact ⟨rfl, rfl, rfl, rfl⟩
  · rw [version_reader_pos bytes viInfo hv, (copy_header_edit_pos stack bytes editInfo he).1]

/-- Witness of C24: the stream `sample`. -/
theorem header_consumed_on_both_paths_witness :
    (ftell (version_reader (open_files (some sample) ⟨[], 0, [], [], ⟨[], 0⟩⟩).2).2.fptr_src_song
        = 10 ∧
      (version_reader (open_files (some sample) ⟨[], 0, [], [], ⟨[], 0⟩⟩).2).2.fptr_src_song.data
        = sample) ∧
    (ftell (copy_header_edit stack0 (open_file (some sample) (request TPE1 xyz)).2).2.fptr_original
        = 10 ∧
      ftell (copy_header_edit stack0 (open_file (some sample) (request TPE1 xyz)).2).2.fptr_temp
        = 10 ∧
      (copy_header_edit stack0 (open_file (some sample) (request TPE1 xyz)).2).2.fptr_original.data
        = sample ∧
      (copy_header_edit stack0 (open_file (some sample) (request TPE1 xyz)).2).2.fptr_temp.data
        = sample.take 10) ∧
    ∀ TAG : List Byte,
      fread TAG 4
          (version_reader (open_files (some sample) ⟨[], 0, [], [], ⟨[], 0⟩⟩).2).2.fptr_src_song
        = fread TAG 4
            (copy_header_edit stack0 (open_file (some sample) (request TPE1 xyz)).2).2.fptr_original :=
  ⟨(header_consumed_on_both_paths stack0 sample ⟨[], 0, [], [], ⟨[], 0⟩⟩ (request TPE1 xyz)).1
      (by decide),
    (header_consumed_on_both_paths stack0 sample ⟨[], 0, [], [], ⟨[], 0⟩⟩ (request TPE1 xyz)).2.1
      (by decide),
    (header_consumed_on_both_paths stack0 sample ⟨[], 0, [], [], ⟨[], 0⟩⟩ (request TPE1 xyz)).2.2
      (by decide) (by decide)⟩

/-- Claim C25: for a stream made of a 10-byte header, six well-formed frames
none of which has the target id, and any bytes after them (a seventh frame with
the target id, for one), the scratch stream is the header and the six frames,
and the file after `do_edit_tags` holds the bytes it held before, whether the
value found in the place of the missing result of `compare_tag` lets the copy
back run or not. -/
theorem not_found_storage_unchanged (stack : Nat → Byte) (undef : Status) (header : List Byte)
    (six : List Frame) (rest mode user_content : List Byte)
    (hheader : header.length = 10) (h6 : six.length = 6) (hwf : ∀ fr ∈ six, fr.wf)
    (hmode : (cstr mode).length = 4) (hnone : ∀ fr ∈ six, fr.id ≠ cstr mode) :
    scratch stack (stream header six rest) mode user_content = header ++ frames_bytes six ∧
    storage_after stack undef (stream header six rest) mode user_content
      = stream header six rest := by
  have hst : stream header six rest = header ++ (frames_bytes six ++ rest) := by
    simp only [stream, List.append_assoc]
  obtain ⟨c1, c2, c3⟩ := compare_tag_not_found stack header six rest mode user_content hheader h6
    (fun fr hfr => ⟨hwf fr hfr, hnone fr hfr⟩) hmode
  rw [hst]
  refine ⟨?_, ?_⟩
  · rw [scratch_some stack header _ mode user_content hheader, c2]
  · unfold storage_after
    rw [do_edit_tags_some stack undef header _ mode user_content hheader, c1]
    cases undef
    · rw [if_neg (by decide)]
      simp only
      rw [(copy_back_eq _).2, c2, c3, ← List.append_assoc, List.drop_left]
    · rw [if_pos (by decide)]
      exact c3

/-- Witness of C25: the request TYER, "2026" on the six frames of `frames1`
followed by a seventh frame TYER. -/
theorem not_found_storage_unchanged_witness :
    scratch stack0 (stream header0 frames1 seventh0) TYER [50, 48, 50, 54, 0]
      = header0 ++ frames_bytes frames1 ∧
    storage_after stack0 e_success (stream header0 frames1 seventh0) TYER [50, 48, 50, 54, 0]
      = stream header0 frames1 seventh0 :=
  not_found_storage_unchanged stack0 e_success header0 frames1 seventh0 TYER [50, 48, 50, 54, 0]
    (by decide) (by decide) (by decide) (by decide) (by decide)

/-- Claim C26: for a well-formed stream whose first six frames are `before`,
`target` and `after`, where `target` is the first frame with the target id, and
a new content whose length plus one fits an `int`: the walk over the stream
finds the six ids of the frames; the walk over the replacement stream finds
the same ids in the same order; the frames up to `target` are at the offsets
they had; and each frame after `target` is at its old offset plus
`strlen (user_content)` minus the old declared size minus one. -/
theorem edit_keeps_frame_walk (stack : Nat → Byte) (header : List Byte)
    (before : List Frame) (target : Frame) (after : List Frame) (trailing : List Byte)
    (mode user_content : List Byte)
    (hheader : header.length = 10)
    (hwf : ∀ fr ∈ before ++ target :: after, fr.wf)
    (hsix : (before ++ target :: after).length = 6)
    (htarget : target.id = cstr mode)
    (hfirst : ∀ fr ∈ before, fr.id ≠ cstr mode)
    (hsize : strlen user_content + 1 < 2 ^ 31) :
    (walk 6 (stream header (before ++ target :: after) trailing) 10).map Prod.snd
      = (before ++ target :: after).map Frame.id ∧
    (walk 6 (scratch stack (stream header (before ++ target :: after) trailing)
        mode user_content) 10).map Prod.snd
      = (walk 6 (stream header (before ++ target :: after) trailing) 10).map Prod.snd ∧
    ((walk 6 (scratch stack (stream header (before ++ target :: after) trailing)
        mode user_content) 10).take (before.length + 1)).map Prod.fst
      = ((walk 6 (stream header (before ++ target :: after) trailing) 10).take
          (before.length + 1)).map Prod.fst ∧
    ((walk 6 (scratch stack (stream header (before ++ target :: after) trailing)
        mode user_content) 10).drop (before.length + 1)).map (fun p => (p.1 : Int))
      = ((walk 6 (stream header (before ++ target :: after) trailing) 10).drop
          (before.length + 1)).map
          (fun p => (p.1 : Int) + ((strlen user_content : Int) - ((target.size : Int) - 1))) := by
  have hk : before.length < 6 := by
    simp only [List.length_append, List.length_cons] at hsix
    omega
  have hwt : target.wf := hwf target (by simp)
  have hw2 : ∀ fr ∈ before ++ ⟨target.id, target.flags, cstr user_content⟩ :: after,
      fr.wf := by
    intro fr hfr
    simp only [List.mem_append, List.mem_cons] at hfr
    rcases hfr with h | h | h
    · exact hwf fr (by simp [h])
    · subst h
      exact ⟨hwt.1, hwt.2.1, hsize⟩
    · exact hwf fr (by simp [h])
  have hsix2 : (before ++ ⟨target.id, target.flags, cstr user_content⟩ :: after).length = 6 := by
    simp only [List.length_append, List.length_cons] at hsix ⊢
    exact hsix
  have wo : walk 6 (stream header (before ++ target :: after) trailing) 10
      = layout 10 (before ++ target :: after) := by
    have := walk_layout (before ++ target :: after) header trailing hwf
    rw [hsix, hheader] at this
    exact this
  have wn : walk 6 (scratch stack (stream header (before ++ target :: after) trailing)
      mode user_content) 10
      = layout 10 (before ++ ⟨target.id, target.flags, cstr user_content⟩ :: after) := by
    rw [scratch_frames stack header before target after trailing mode user_content hheader hwf hk
      htarget hfirst]
    have := walk_layout (before ++ ⟨target.id, target.flags, cstr user_content⟩ :: after)
      header trailing hw2
    rw [hsix2, hheader] at this
    exact this
  rw [wo, wn, layout_append, layout_append]
  simp only [layout]
  obtain ⟨t1, d1⟩ := take_mid (layout 10 before) (10 + (frames_bytes before).length, target.id)
    (layout (10 + (frames_bytes before).length + target.bytes.length) after) before.length
    (layout_length before 10)
  obtain ⟨t2, d2⟩ := take_mid (layout 10 before) (10 + (frames_bytes before).length, target.id)
    (layout (10 + (frames_bytes before).length
      + (Frame.bytes ⟨target.id, target.flags, cstr user_content⟩).length) after) before.length
    (layout_length before 10)
  rw [t1, d1, t2, d2]
  refine ⟨?_, ?_, rfl, ?_⟩
  · simp only [List.map_append, List.map_cons, layout_ids]
  · simp only [List.map_append, List.map_cons, layout_ids]
  · rw [layout_shift after (10 + (frames_bytes before).length + target.bytes.length)]
    apply List.map_congr_left
    intro p _
    have e1 := Frame.bytes_length target hwt
    have e2 := Frame.bytes_length ⟨target.id, target.flags, cstr user_content⟩
      ⟨hwt.1, hwt.2.1, hsize⟩
    rw [e1, e2]
    simp only [Frame.size, strlen]
    push_cast
    omega

/-- Witness of C26: the request TPE1, "XYZ" on `sample`; the four frames after
TPE1 move by 3 - (6 - 1) = -2. -/
theorem edit_keeps_frame_walk_witness :
    (walk 6 (stream header0 (frames0.take 1
        ++ ⟨[84, 80, 69, 49], [0, 0, 0], [65, 66, 0, 0, 0]⟩ :: frames0.drop 2) trailing0)
        10).map Prod.snd
      = (frames0.take 1
          ++ ⟨[84, 80, 69, 49], [0, 0, 0], [65, 66, 0, 0, 0]⟩ :: frames0.drop 2).map Frame.id ∧
    (walk 6 (scratch stack0 (stream header0 (frames0.take 1
        ++ ⟨[84, 80, 69, 49], [0, 0, 0], [65, 66, 0, 0, 0]⟩ :: frames0.drop 2) trailing0)
        TPE1 xyz) 10).map Prod.snd
      = (walk 6 (stream header0 (frames0.take 1
          ++ ⟨[84, 80, 69, 49], [0, 0, 0], [65, 66, 0, 0, 0]⟩ :: frames0.drop 2) trailing0)
          10).map Prod.snd ∧
    ((walk 6 (scratch stack0 (stream header0 (frames0.take 1
        ++ ⟨[84, 80, 69, 49], [0, 0, 0], [65, 66, 0, 0, 0]⟩ :: frames0.drop 2) trailing0)
        TPE1 xyz) 10).take ((frames0.take 1).length + 1)).map Prod.fst
      = ((walk 6 (stream header0 (frames0.take 1
          ++ ⟨[84, 80, 69, 49], [0, 0, 0], [65, 66, 0, 0, 0]⟩ :: frames0.drop 2) trailing0)
          10).take ((frames0.take 1).length + 1)).map Prod.fst ∧
    ((walk 6 (scratch stack0 (stream header0 (frames0.take 1
        ++ ⟨[84, 80, 69, 49], [0, 0, 0], [65, 66, 0, 0, 0]⟩ :: frames0.drop 2) trailing0)
        TPE1 xyz) 10).drop ((frames0.take 1).length + 1)).map (fun p => (p.1 : Int))
      = ((walk 6 (stream header0 (frames0.take 1
          ++ ⟨[84, 80, 69, 49], [0, 0, 0], [65, 66, 0, 0, 0]⟩ :: frames0.drop 2) trailing0)
          10).drop ((frames0.take 1).length + 1)).map
          (fun p => (p.1 : Int) + ((strlen xyz : Int)
            - ((Frame.size ⟨[84, 80, 69, 49], [0, 0, 0], [65, 66, 0, 0, 0]⟩ : Int) - 1))) :=
  edit_keeps_frame_walk stack0 header0 (frames0.take 1)
    ⟨[84, 80, 69, 49], [0, 0, 0], [65, 66, 0, 0, 0]⟩ (frames0.drop 2) trailing0 TPE1 xyz
    (by decide) (by decide) (by decide) (by decide) (by decide) (by decide)

/-- Claim C27: for a well-formed stream, a target id that one of its first six
frames carries and a new content whose length plus one fits an `int`, a second
run of `do_edit_tags` with the same request, on the file as the first run left
it, leaves the file as the first run left it. -/
theorem edit_twice_same_storage (stack stack2 : Nat → Byte) (undef undef2 : Status)
    (header : List Byte) (before : List Frame) (target : Frame) (after : List Frame)
    (trailing mode user_content : List Byte)
    (hheader : header.length = 10)
    (hwf : ∀ fr ∈ before ++ target :: after, fr.wf)
    (hk : before.length < 6)
    (htarget : target.id = cstr mode)
    (hfirst : ∀ fr ∈ before, fr.id ≠ cstr mode)
    (hsize : strlen user_content + 1 < 2 ^ 31) :
    storage_after stack2 undef2
        (storage_after stack undef (stream header (before ++ target :: after) trailing)
          mode user_content) mode user_content
      = storage_after stack undef (stream header (before ++ target :: after) trailing)
          mode user_content := by
  have hwt : target.wf := hwf target (by simp)
  have hm : (cstr mode).length = 4 := by rw [← htarget]; exact hwt.1
  have hpre : ∀ fr ∈ before, fr.wf ∧ fr.id ≠ cstr mode :=
    fun fr hfr => ⟨hwf fr (by simp [hfr]), hfirst fr hfr⟩
  have hst : stream header (before ++ target :: after) trailing
      = header ++ frames_bytes before ++ (target.id ++ be32 (target.content.length + 1)
          ++ target.flags ++ (target.content ++ (frames_bytes after ++ trailing))) := by
    simp [stream, frames_bytes_append, frames_bytes_cons, Frame.bytes, Frame.size]
  have h1 := storage_after_frame stack undef header before target.id target.flags
    target.content (frames_bytes after ++ trailing) mode user_content hheader hk hpre htarget hm
    hwt.2.1 hwt.2.2
  have h2 := storage_after_frame stack2 undef2 header before target.id target.flags
    (cstr user_content) (frames_bytes after ++ trailing
      ++ (target.content ++ (frames_bytes after ++ trailing)).drop
        ((cstr user_content).length + (frames_bytes after ++ trailing).length))
    mode user_content hheader hk hpre htarget hm hwt.2.1 hsize
  rw [hst, h1]
  simp only [strlen] at h2 ⊢
  rw [h2]
  rw [List.drop_append, List.drop_length, List.append_nil]

/-- Witness of C27: the request TPE1, "XYZ" on `sample`, twice. -/
theorem edit_twice_same_storage_witness :
    storage_after stack0 e_success
        (storage_after stack0 e_success (stream header0 (frames0.take 1
          ++ ⟨[84, 80, 69, 49], [0, 0, 0], [65, 66, 0, 0, 0]⟩ :: frames0.drop 2) trailing0)
          TPE1 xyz) TPE1 xyz
      = storage_after stack0 e_success (stream header0 (frames0.take 1
          ++ ⟨[84, 80, 69, 49], [0, 0, 0], [65, 66, 0, 0, 0]⟩ :: frames0.drop 2) trailing0)
          TPE1 xyz :=
  edit_twice_same_storage stack0 stack0 e_success e_success header0 (frames0.take 1)
    ⟨[84, 80, 69, 49], [0, 0, 0], [65, 66, 0, 0, 0]⟩ (frames0.drop 2) trailing0 TPE1 xyz
    (by decide) (by decide) (by decide) (by decide) (by decide) (by decide)

set_option maxRecDepth 1000000 in
/-- Claim C28, the code at a failing input: `sample` has six well-formed frames
with distinct ids. Setting ARTIST to "XYZ", 2 bytes shorter than the old
content, and then TITLE to "Abc", 1 byte shorter than "Song", leaves the file
with the last three bytes 144, 100, 100; the same two edits in the other order
leave 100, 100, 100. Both files begin with the same replacement stream; they
differ in the bytes of the old file that the copy back leaves behind it. -/
theorem edit_order_changes_storage :
    (∀ fr ∈ frames0, fr.wf) ∧ (frames0.map Frame.id).Nodup ∧ frames0.length = 6 ∧
    storage_after stack0 e_success (storage_after stack0 e_success sample TPE1 xyz) TIT2 abc
      = stream header0 frames2 trailing0 ++ [144, 100, 100] ∧
    storage_after stack0 e_success (storage_after stack0 e_success sample TIT2 abc) TPE1 xyz
      = stream header0 frames2 trailing0 ++ [100, 100, 100] ∧
    storage_after stack0 e_success (storage_after stack0 e_success sample TPE1 xyz) TIT2 abc
      ≠ storage_after stack0 e_success (storage_after stack0 e_success sample TIT2 abc)
          TPE1 xyz := by
  refine ⟨by decide, by decide, by decide, storage_artist_title, storage_title_artist, ?_⟩
  rw [storage_artist_title, storage_title_artist]
  decide

/-- Claim C29, the code at a failing input: the name "a.mp3.txt" does not end
with ".mp3", and `read_and_validate_for_view`, `read_and_validate_for_version`
and `read_and_validate_for_edit` return `e_success` for it, as
`read_and_validate_for_view` does for "song.mp3": `strstr` finds ".mp3"
anywhere in the name. -/
theorem name_with_mp3_inside_is_accepted :
    cstr a_mp3_txt = [97, 46, 109, 112, 51, 46, 116, 120, 116] ∧
    ¬ (cstr dot_mp3 <:+ cstr a_mp3_txt) ∧
    (read_and_validate_for_view [[], [45, 118, 0], a_mp3_txt] []).1 = e_success ∧
    (read_and_validate_for_version
      [[], [45, 45, 118, 101, 114, 115, 105, 111, 110, 0], a_mp3_txt] []).1 = e_success ∧
    (read_and_validate_for_edit [[], [45, 101, 0], flag_t, xyz, a_mp3_txt]
      (request [] []) ⟨[], []⟩).1 = e_success ∧
    (read_and_validate_for_view [[], [45, 118, 0], song_mp3] []).1 = e_success := by
  decide

end MP3
